import Mathlib

/-!
Verification development for the tinyPortMapper-rust forwarding core.

The Rust sources under `src/` are shallowly embedded below: pure data
structures become Lean structures over `Nat`/`Int`/`List`, machine
integers are `Nat` with explicit `% 2^64` where wrap-around matters,
and fallible operations return `Option`.  Each definition carries a
reference to the Rust item it embeds.
-/

/-! ## Association-list model of `std::collections::HashMap`

The repository stores its tables in `HashMap`s.  We model a map as an
association list with key-wise lookup/insert/remove; `insertA` replaces
the value of an existing key in place (as `HashMap::insert` does) and
appends fresh keys. -/

def lookupA {K V : Type} [DecidableEq K] : List (K × V) → K → Option V
  | [], _ => none
  | (k', v) :: rest, k => if k' = k then some v else lookupA rest k

def containsA {K V : Type} [DecidableEq K] (l : List (K × V)) (k : K) : Bool :=
  (lookupA l k).isSome

def insertA {K V : Type} [DecidableEq K] : List (K × V) → K → V → List (K × V)
  | [], k, v => [(k, v)]
  | (k', v') :: rest, k, v =>
      if k' = k then (k, v) :: rest else (k', v') :: insertA rest k v

/-- `HashMap::remove` / `Vec::retain(|x| x != key)`: drop every entry
with the given key. -/
def removeA {K V : Type} [DecidableEq K] (l : List (K × V)) (k : K) : List (K × V) :=
  l.filter (fun p => decide (p.1 ≠ k))

def keysA {K V : Type} (l : List (K × V)) : List K := l.map Prod.fst

/-! ## Sorting by a numeric key

`Vec::sort_by(|a, b| key(a).cmp(&key(b)))` and `sort_by_key` are modelled
by Mathlib's stable `List.insertionSort` under the keyed relation below. -/

def keyLe {β : Type} (key : β → Nat) (a b : β) : Prop := key a ≤ key b

instance {β : Type} (key : β → Nat) : DecidableRel (keyLe key) :=
  fun a b => Nat.decLe (key a) (key b)

instance {β : Type} (key : β → Nat) : IsTotal β (keyLe key) :=
  ⟨fun a b => Nat.le_total (key a) (key b)⟩

instance {β : Type} (key : β → Nat) : IsTrans β (keyLe key) :=
  ⟨fun _ _ _ h h' => Nat.le_trans h h'⟩

def sortByKey {β : Type} (key : β → Nat) (l : List β) : List β :=
  List.insertionSort (keyLe key) l

/-! ## `src/lru.rs` — `LruCollector`

Field-for-field embedding of the struct: `values`/`access_times` are
`HashMap`s (association lists), `time_list` a `Vec<K>`, `min_heap` a
`Vec<(u64, K)>` kept ascending by `sort_by(|a, b| a.0.cmp(&b.0))`. -/

structure LruCollector (K T : Type) where
  values : List (K × T)
  access_times : List (K × Nat)
  time_list : List K
  min_heap : List (Nat × K)
deriving DecidableEq

def LruCollector.new {K T : Type} : LruCollector K T :=
  { values := [], access_times := [], time_list := [], min_heap := [] }

/-- `LruCollector::new_key`: insert into both maps, push the key onto
`time_list`, push `(access_time, key)` onto `min_heap` and re-sort. -/
def LruCollector.new_key {K T : Type} [DecidableEq K]
    (s : LruCollector K T) (k : K) (v : T) (access_time : Nat) : LruCollector K T :=
  { values := insertA s.values k v
    access_times := insertA s.access_times k access_time
    time_list := s.time_list ++ [k]
    min_heap := sortByKey Prod.fst (s.min_heap ++ [(access_time, k)]) }

/-- The `for (time, k) in self.min_heap.iter_mut() { if k == key { *time = new_time; break } }`
loop of `LruCollector::update`: rewrite the first heap entry carrying the key. -/
def updateHeapFirst {K : Type} [DecidableEq K] :
    List (Nat × K) → K → Nat → List (Nat × K)
  | [], _, _ => []
  | (t', k') :: rest, k, t =>
      if k' = k then (t, k') :: rest else (t', k') :: updateHeapFirst rest k t

/-- `LruCollector::update`: when the key is present, rewrite its heap
entry, re-sort the heap and store the new access time; otherwise leave
the collector unchanged and report `false`. -/
def LruCollector.update {K T : Type} [DecidableEq K]
    (s : LruCollector K T) (k : K) (access_time : Nat) : LruCollector K T × Bool :=
  if containsA s.access_times k then
    ({ s with
        min_heap := sortByKey Prod.fst (updateHeapFirst s.min_heap k access_time)
        access_times := insertA s.access_times k access_time }, true)
  else (s, false)

/-- The scan inside `LruCollector::peek_back`: walk `time_list` and
return the first key whose stored access time equals `min_time` and
which still has a value. -/
def peekScan {K T : Type} [DecidableEq K]
    (ats : List (K × Nat)) (vals : List (K × T)) (minTime : Nat) :
    List K → Option (K × T)
  | [] => none
  | k :: rest =>
      if lookupA ats k = some minTime then
        match lookupA vals k with
        | some v => some (k, v)
        | none => peekScan ats vals minTime rest
      else peekScan ats vals minTime rest

/-- `LruCollector::peek_back`: take the smallest heap timestamp and scan
`time_list` for a matching entry. -/
def LruCollector.peek_back {K T : Type} [DecidableEq K]
    (s : LruCollector K T) : Option (K × T) :=
  match s.min_heap.head? with
  | none => none
  | some (minTime, _) => peekScan s.access_times s.values minTime s.time_list

/-- `LruCollector::erase`: remove the key from both maps, `time_list`
and `min_heap`; report whether a value existed. -/
def LruCollector.erase {K T : Type} [DecidableEq K]
    (s : LruCollector K T) (k : K) : LruCollector K T × Bool :=
  ({ values := removeA s.values k
     access_times := removeA s.access_times k
     time_list := s.time_list.filter (fun k' => decide (k' ≠ k))
     min_heap := s.min_heap.filter (fun p => decide (p.2 ≠ k)) },
   containsA s.values k)

def LruCollector.len {K T : Type} (s : LruCollector K T) : Nat := s.values.length

def LruCollector.ts_of {K T : Type} [DecidableEq K]
    (s : LruCollector K T) (k : K) : Option Nat := lookupA s.access_times k

/-- Client-visible operations of `LruCollector`, for reachability
statements over operation sequences. -/
inductive LruOp (K T : Type) where
  | new_key (k : K) (v : T) (t : Nat)
  | update (k : K) (t : Nat)
  | erase (k : K)

def LruCollector.applyOp {K T : Type} [DecidableEq K]
    (s : LruCollector K T) : LruOp K T → LruCollector K T
  | .new_key k v t => s.new_key k v t
  | .update k t => (s.update k t).1
  | .erase k => (s.erase k).1

def LruCollector.run {K T : Type} [DecidableEq K]
    (ops : List (LruOp K T)) : LruCollector K T :=
  ops.foldl LruCollector.applyOp LruCollector.new

/-- An operation sequence is fresh-keyed when every `new_key` targets a
key not currently stored (this is how both managers drive the
collector: `new_connection`/`new_session` never reuse a live key). -/
def freshOps {K T : Type} [DecidableEq K] :
    LruCollector K T → List (LruOp K T) → Bool
  | _, [] => true
  | s, op :: rest =>
      (match op with
       | .new_key k _ _ => !containsA s.values k
       | _ => true) && freshOps (s.applyOp op) rest

/-! ## Machine-integer helpers

`u64` values are `Nat`s reduced `% 2^64` where wrap-around matters;
`isize`/raw `libc` return values are `Int`. -/

def U64MOD : Nat := 2 ^ 64

/-- Wrapping `u64` subtraction `a - b` (release-mode Rust semantics). -/
def u64Sub (a b : Nat) : Nat :=
  if b ≤ a then a - b else U64MOD - (b - a)

/-- The `as usize` cast of an `isize`: two's-complement reinterpretation
on a 64-bit platform (so `-1 as usize = 2^64 - 1`). -/
def isizeToUsize (i : Int) : Nat := (i % (2 ^ 64 : Nat)).toNat

/-! ## `src/stats.rs` — `TrafficStats`

Six `AtomicU64` counters; `fetch_add`/`fetch_sub` wrap modulo `2^64`. -/

structure TrafficStats where
  tcp_bytes_received : Nat
  tcp_bytes_sent : Nat
  udp_bytes_received : Nat
  udp_bytes_sent : Nat
  tcp_connections : Nat
  udp_sessions : Nat
deriving DecidableEq

def TrafficStats.default : TrafficStats :=
  { tcp_bytes_received := 0, tcp_bytes_sent := 0, udp_bytes_received := 0
    udp_bytes_sent := 0, tcp_connections := 0, udp_sessions := 0 }

def TrafficStats.add_tcp_received (s : TrafficStats) (bytes : Nat) : TrafficStats :=
  { s with tcp_bytes_received := (s.tcp_bytes_received + bytes) % U64MOD }

def TrafficStats.add_tcp_sent (s : TrafficStats) (bytes : Nat) : TrafficStats :=
  { s with tcp_bytes_sent := (s.tcp_bytes_sent + bytes) % U64MOD }

def TrafficStats.add_udp_received (s : TrafficStats) (bytes : Nat) : TrafficStats :=
  { s with udp_bytes_received := (s.udp_bytes_received + bytes) % U64MOD }

def TrafficStats.add_udp_sent (s : TrafficStats) (bytes : Nat) : TrafficStats :=
  { s with udp_bytes_sent := (s.udp_bytes_sent + bytes) % U64MOD }

def TrafficStats.inc_tcp_connections (s : TrafficStats) : TrafficStats :=
  { s with tcp_connections := (s.tcp_connections + 1) % U64MOD }

/-- `fetch_sub(1, Relaxed)` on an `AtomicU64` wraps: it adds `2^64 - 1`
modulo `2^64`. -/
def TrafficStats.dec_tcp_connections (s : TrafficStats) : TrafficStats :=
  { s with tcp_connections := (s.tcp_connections + (U64MOD - 1)) % U64MOD }

def TrafficStats.inc_udp_sessions (s : TrafficStats) : TrafficStats :=
  { s with udp_sessions := (s.udp_sessions + 1) % U64MOD }

def TrafficStats.dec_udp_sessions (s : TrafficStats) : TrafficStats :=
  { s with udp_sessions := (s.udp_sessions + (U64MOD - 1)) % U64MOD }

/-! ## `src/fd_manager.rs` — `FdManager`

Raw descriptors are `Int` (a Unix `RawFd` is an `i32`); `Fd64` handles
are `Nat` values below `2^64`.  The counter starts at `1` and
`fetch_add(1)` returns the previous value, wrapping modulo `2^64`. -/

structure FdManager where
  fd_to_fd64 : List (Int × Nat)
  fd64_to_fd : List (Nat × Int)
  fd_info : List (Nat × Nat)
  counter : Nat
deriving DecidableEq

def FdManager.new : FdManager :=
  { fd_to_fd64 := [], fd64_to_fd := [], fd_info := [], counter := 1 }

/-- `FdManager::create`: allocate the next handle and install all three
maps (the `fd_info` entry records the creation time). -/
def FdManager.create (m : FdManager) (raw_fd : Int) (create_time : Nat) :
    FdManager × Nat :=
  let fd64 := m.counter
  ({ fd_to_fd64 := insertA m.fd_to_fd64 raw_fd fd64
     fd64_to_fd := insertA m.fd64_to_fd fd64 raw_fd
     fd_info := insertA m.fd_info fd64 create_time
     counter := (m.counter + 1) % U64MOD }, fd64)

/-- `FdManager::get_or_create`: return the existing handle for a raw
descriptor, otherwise allocate as `create` does. -/
def FdManager.get_or_create (m : FdManager) (raw_fd : Int) (create_time : Nat) :
    FdManager × Nat :=
  match lookupA m.fd_to_fd64 raw_fd with
  | some fd64 => (m, fd64)
  | none => m.create raw_fd create_time

def FdManager.to_fd (m : FdManager) (fd64 : Nat) : Option Int :=
  lookupA m.fd64_to_fd fd64

def FdManager.exist (m : FdManager) (fd64 : Nat) : Bool :=
  containsA m.fd64_to_fd fd64

/-- `FdManager::close`: remove the handle from all three maps and return
the raw descriptor if the handle was live. -/
def FdManager.close (m : FdManager) (fd64 : Nat) : FdManager × Option Int :=
  match lookupA m.fd64_to_fd fd64 with
  | none => (m, none)
  | some raw_fd =>
      ({ m with
          fd64_to_fd := removeA m.fd64_to_fd fd64
          fd_to_fd64 := m.fd_to_fd64.filter (fun p => decide (p.2 ≠ fd64))
          fd_info := removeA m.fd_info fd64 }, some raw_fd)

/-- Registry operations used in reachability statements. -/
inductive FdOp where
  | create (raw_fd : Int) (t : Nat)
  | get_or_create (raw_fd : Int) (t : Nat)
  | close (fd64 : Nat)

/-- Run a sequence of registry operations from a given state, collecting
every handle returned by `create`/`get_or_create`. -/
def FdManager.runOps (m : FdManager) : List FdOp → FdManager × List Nat
  | [] => (m, [])
  | op :: rest =>
    match op with
    | .create raw t =>
        let (m', h) := m.create raw t
        let (m'', hs) := m'.runOps rest
        (m'', h :: hs)
    | .get_or_create raw t =>
        let (m', h) := m.get_or_create raw t
        let (m'', hs) := m'.runOps rest
        (m'', h :: hs)
    | .close fd64 =>
        let (m', _) := m.close fd64
        m'.runOps rest

/-- `src/event/mod.rs`, `EventLoop::register_listen_socket`: both
listener tokens are generated for the sentinel handle `Fd64(0)`. -/
def listenSentinelFd64 : Nat := 0

/-! ## `src/types/address.rs` — `Address`

`Address` wraps a `std::net::SocketAddr`: IPv4 is four octets plus a
port; IPv6 is eight 16-bit segments plus port, flowinfo and scope id.
Equality is structural (`SocketAddr` `PartialEq` compares all fields,
including flowinfo and scope id for v6). -/

inductive Address where
  | v4 (a b c d : Nat) (port : Nat)
  | v6 (s0 s1 s2 s3 s4 s5 s6 s7 : Nat) (port : Nat) (flowinfo : Nat) (scope_id : Nat)
deriving DecidableEq

/-- `Address::from_ipv4`. -/
def Address.from_ipv4 (a b c d port : Nat) : Address := .v4 a b c d port

/-- `Address::from_ipv6`: `SocketAddrV6::new(ip, port, 0, 0)`. -/
def Address.from_ipv6 (s0 s1 s2 s3 s4 s5 s6 s7 port : Nat) : Address :=
  .v6 s0 s1 s2 s3 s4 s5 s6 s7 port 0 0

/-- `Address::from_ipv6_with_scope_id`: `SocketAddrV6::new(ip, port, 0, scope_id)`. -/
def Address.from_ipv6_with_scope_id (s0 s1 s2 s3 s4 s5 s6 s7 port scope_id : Nat) : Address :=
  .v6 s0 s1 s2 s3 s4 s5 s6 s7 port 0 scope_id

/-- Well-formedness of a constructible `Address`: field bounds as they
hold for every value built by the program (octets/segments/ports in
range; flowinfo is `0` in all constructors of `address.rs`). -/
def Address.WF : Address → Prop
  | .v4 a b c d port => a < 256 ∧ b < 256 ∧ c < 256 ∧ d < 256 ∧ port < 65536
  | .v6 s0 s1 s2 s3 s4 s5 s6 s7 port flowinfo _scope_id =>
      s0 < 65536 ∧ s1 < 65536 ∧ s2 < 65536 ∧ s3 < 65536 ∧ s4 < 65536 ∧
      s5 < 65536 ∧ s6 < 65536 ∧ s7 < 65536 ∧ port < 65536 ∧ flowinfo = 0

instance (a : Address) : Decidable a.WF := by
  cases a <;> (unfold Address.WF; infer_instance)

/-! ### Decimal / hexadecimal printing (`core::fmt` `{}` and `{:x}`) -/

def decDigitChar (n : Nat) : Char := Char.ofNat (48 + n)

def hexDigitChar (n : Nat) : Char :=
  if n < 10 then Char.ofNat (48 + n) else Char.ofNat (87 + n)

/-- Digit-extraction loop for decimal printing (structural recursion on
a fuel bound; `fuel ≥ number of digits` suffices, and the printers pass
`fuel = n`). -/
def decDigitsGo : Nat → Nat → List Char → List Char
  | 0, _, acc => acc
  | fuel + 1, n, acc =>
      if n = 0 then acc
      else decDigitsGo fuel (n / 10) (decDigitChar (n % 10) :: acc)

/-- Canonical decimal rendering of a `u8`/`u16` (`{}`). -/
def decPrint (n : Nat) : List Char :=
  if n = 0 then ['0'] else decDigitsGo n n []

def hexDigitsGo : Nat → Nat → List Char → List Char
  | 0, _, acc => acc
  | fuel + 1, n, acc =>
      if n = 0 then acc
      else hexDigitsGo fuel (n / 16) (hexDigitChar (n % 16) :: acc)

/-- Lowercase hexadecimal rendering of a `u16` (`{:x}`). -/
def hexPrint (n : Nat) : List Char :=
  if n = 0 then ['0'] else hexDigitsGo n n []

/-- `Display for Ipv4Addr`: dotted quad. -/
def fmtIpv4 (a b c d : Nat) : List Char :=
  decPrint a ++ '.' :: decPrint b ++ '.' :: decPrint c ++ '.' :: decPrint d

/-- The zero-span scan of `Display for Ipv6Addr`: walk the segments
tracking the current run of zero segments and the first longest run
seen (`(start, len)`, strictly-greater replacement). -/
def zeroSpanGo (segs : List Nat) (i curStart curLen bestStart bestLen : Nat) :
    Nat × Nat :=
  match segs with
  | [] => (bestStart, bestLen)
  | s :: rest =>
      if s = 0 then
        let cs := if curLen = 0 then i else curStart
        let cl := curLen + 1
        if cl > bestLen then zeroSpanGo rest (i + 1) cs cl cs cl
        else zeroSpanGo rest (i + 1) cs cl bestStart bestLen
      else zeroSpanGo rest (i + 1) 0 0 bestStart bestLen

def zeroSpan (segs : List Nat) : Nat × Nat := zeroSpanGo segs 0 0 0 0 0

/-- `fmt_subslice`: segments joined with `':'` (empty chunk prints
nothing). -/
def joinColon : List (List Char) → List Char
  | [] => []
  | [g] => g
  | g :: rest => g ++ ':' :: joinColon rest

/-- `Display for Ipv6Addr` (current `core::net` behaviour, no width or
precision): the v4-mapped form prints `::ffff:a.b.c.d`; otherwise the
first longest run of at least two zero segments is compressed to `::`;
otherwise all eight groups print in full. -/
def fmtIpv6 (s0 s1 s2 s3 s4 s5 s6 s7 : Nat) : List Char :=
  if s0 = 0 ∧ s1 = 0 ∧ s2 = 0 ∧ s3 = 0 ∧ s4 = 0 ∧ s5 = 65535 then
    ':' :: ':' :: 'f' :: 'f' :: 'f' :: 'f' :: ':' ::
      fmtIpv4 (s6 / 256) (s6 % 256) (s7 / 256) (s7 % 256)
  else
    let segs := [s0, s1, s2, s3, s4, s5, s6, s7]
    let span := zeroSpan segs
    if span.2 > 1 then
      joinColon ((segs.take span.1).map hexPrint) ++ ':' :: ':' ::
        joinColon ((segs.drop (span.1 + span.2)).map hexPrint)
    else joinColon (segs.map hexPrint)

/-- `Display for Address` (`src/types/address.rs`): `a.b.c.d:port` or
`[v6]:port` — the v6 form prints `v6.ip()` only, so neither flowinfo
nor scope id appears in the output. -/
def fmtAddress : Address → List Char
  | .v4 a b c d p => fmtIpv4 a b c d ++ ':' :: decPrint p
  | .v6 s0 s1 s2 s3 s4 s5 s6 s7 p _flow _scope =>
      '[' :: fmtIpv6 s0 s1 s2 s3 s4 s5 s6 s7 ++ ']' :: ':' :: decPrint p

/-- `Address::to_string()`. -/
def Address.toString (a : Address) : String := String.mk (fmtAddress a)

/-! ### `core::net::parser` — the std address parser

Parsers consume a `List Char` and return `Option (result × rest)`;
failure leaves the input unconsumed (`Parser::read_atomically`). -/

/-- `char::to_digit(radix)`. -/
def toDigitQ (radix : Nat) (c : Char) : Option Nat :=
  let n := c.toNat
  if 48 ≤ n ∧ n ≤ 57 then
    if n - 48 < radix then some (n - 48) else none
  else
    let lower := if 65 ≤ n ∧ n ≤ 90 then n + 32 else n
    if 97 ≤ lower ∧ lower ≤ 122 then
      if lower - 87 < radix then some (lower - 87) else none
    else none

/-- The digit loop of `Parser::read_number`: consume every consecutive
digit, failing on overflow past `limitVal` (`checked_mul`/`checked_add`
in the target integer type) or on more than `maxD` digits. -/
def readNumGo (radix limitVal maxD : Nat) :
    List Char → Nat → Nat → Option (Nat × Nat × List Char)
  | [], acc, cnt => some (acc, cnt, [])
  | c :: rest, acc, cnt =>
      match toDigitQ radix c with
      | none => some (acc, cnt, c :: rest)
      | some d =>
          if acc * radix + d > limitVal then none
          else if cnt + 1 > maxD then none
          else readNumGo radix limitVal maxD rest (acc * radix + d) (cnt + 1)

/-- `Parser::read_number(radix, Some(maxD), allowZeroPre)` at an integer
type with maximum `limitVal`. -/
def readNumber (radix limitVal maxD : Nat) (allowZeroPre : Bool)
    (s : List Char) : Option (Nat × List Char) :=
  let hasLeadingZero := decide (s.head? = some '0')
  match readNumGo radix limitVal maxD s 0 0 with
  | none => none
  | some (v, cnt, rest) =>
      if cnt = 0 then none
      else if !allowZeroPre && hasLeadingZero && decide (cnt > 1) then none
      else some (v, rest)

/-- `Parser::read_given_char`. -/
def readGivenChar (c : Char) : List Char → Option (List Char)
  | [] => none
  | x :: rest => if x = c then some rest else none

/-- `Parser::read_separator(sep, index, inner)`: require the separator
before `inner` except at index 0. -/
def readSeparator {α : Type} (sep : Char) (i : Nat)
    (inner : List Char → Option (α × List Char)) (s : List Char) :
    Option (α × List Char) :=
  if i = 0 then inner s
  else
    match readGivenChar sep s with
    | none => none
    | some rest => inner rest

/-- `Parser::read_ipv4_addr`: four `u8` octets (no leading zeros)
separated by `'.'`. -/
def readIpv4 (s : List Char) : Option ((Nat × Nat × Nat × Nat) × List Char) := do
  let (a, r1) ← readNumber 10 255 3 false s
  let r2 ← readGivenChar '.' r1
  let (b, r3) ← readNumber 10 255 3 false r2
  let r4 ← readGivenChar '.' r3
  let (c, r5) ← readNumber 10 255 3 false r4
  let r6 ← readGivenChar '.' r5
  let (d, r7) ← readNumber 10 255 3 false r6
  pure ((a, b, c, d), r7)

/-- The `read_groups` helper of `Parser::read_ipv6_addr`: read up to
`limit` colon-separated 16-bit hex groups, allowing a trailing embedded
IPv4 address while at least two slots remain.  `remaining` counts the
slots left (`limit - i`), so the loop guard `i < limit` is the outer
pattern and the embedded-IPv4 guard `i < limit - 1` is `1 ≤ remaining`. -/
def readGroupsGo : Nat → Nat → List Nat → List Char → List Nat × Bool × List Char
  | 0, _, acc, s => (acc, false, s)
  | remaining + 1, i, acc, s =>
      match (if 1 ≤ remaining then readSeparator ':' i readIpv4 s else none) with
      | some ((a, b, c, d), rest) =>
          (acc ++ [a * 256 + b, c * 256 + d], true, rest)
      | none =>
          match readSeparator ':' i (readNumber 16 65535 4 true) s with
          | some (g, rest) => readGroupsGo remaining (i + 1) (acc ++ [g]) rest
          | none => (acc, false, s)

def readGroups (limit : Nat) (s : List Char) : List Nat × Bool × List Char :=
  readGroupsGo limit 0 [] s

/-- `Parser::read_ipv6_addr`: a full 8-group head, or a head, `::`, and
a tail filling the trailing positions (the compressed middle is zero).
An embedded IPv4 part may only end the address. -/
def readIpv6 (s : List Char) : Option (List Nat × List Char) :=
  let (head, headV4, rest) := readGroups 8 s
  if head.length = 8 then some (head, rest)
  else if headV4 then none
  else
    match readGivenChar ':' rest with
    | none => none
    | some r1 =>
        match readGivenChar ':' r1 with
        | none => none
        | some r2 =>
            let limit := 8 - (head.length + 1)
            let (tail, _, r3) := readGroups limit r2
            some (head ++ List.replicate (8 - head.length - tail.length) 0 ++ tail, r3)

/-- `Ipv4Addr::from_str`: the parser must consume the whole string. -/
def ipv4FromStr (s : List Char) : Option (Nat × Nat × Nat × Nat) :=
  match readIpv4 s with
  | some (q, []) => some q
  | _ => none

/-- `Ipv6Addr::from_str`: the parser must consume the whole string. -/
def ipv6FromStr (s : List Char) : Option (List Nat) :=
  match readIpv6 s with
  | some (v, []) => some v
  | _ => none

def parseU16Digits : List Char → Nat → Option Nat
  | [], acc => some acc
  | c :: rest, acc =>
      match toDigitQ 10 c with
      | none => none
      | some d =>
          if acc * 10 + d > 65535 then none else parseU16Digits rest (acc * 10 + d)

/-- `u16::from_str`: optional `'+'`, then a non-empty run of decimal
digits with checked accumulation (any other character, including `'-'`
on the unsigned type, fails inside the digit loop). -/
def parseU16 (s : List Char) : Option Nat :=
  match s with
  | [] => none
  | c :: r =>
      if c = '+' then (if r = [] then none else parseU16Digits r 0)
      else parseU16Digits (c :: r) 0

/-- `s.rfind(c)`. -/
def rfindIdx (c : Char) (s : List Char) : Option Nat :=
  match List.findIdx? (fun x => decide (x = c)) s.reverse with
  | none => none
  | some j => some (s.length - 1 - j)

/-- `Address::from_str` (`src/types/address.rs`): bracketed v6 with a
`:port` suffix (scope id set to 0 by `from_ipv6`), otherwise split at
the last `':'` and parse a dotted-quad v4. -/
def addressFromStr (s : List Char) : Option Address :=
  if s.head? = some '[' then
    match List.findIdx? (fun c => decide (c = ']')) s with
    | none => none
    | some closing =>
        let ip_part := (s.take closing).drop 1
        let port_part := s.drop (closing + 1)
        match port_part with
        | ':' :: pp =>
            match parseU16 pp with
            | none => none
            | some port =>
                match ipv6FromStr ip_part with
                | some [a0, a1, a2, a3, a4, a5, a6, a7] =>
                    some (Address.from_ipv6 a0 a1 a2 a3 a4 a5 a6 a7 port)
                | _ => none
        | _ => none
  else
    match rfindIdx ':' s with
    | none => none
    | some i =>
        let ip_part := s.take i
        let port_part := s.drop (i + 1)
        if ip_part.contains ':' then none
        else
          match ipv4FromStr ip_part with
          | none => none
          | some (a, b, c, d) =>
              match parseU16 port_part with
              | none => none
              | some port => some (Address.from_ipv4 a b c d port)

/-! ## `src/connection/mod.rs` — endpoints and per-flow records -/

/-- `TcpEndpoint`: handle, byte buffer, start offset, pending length.
(The Linux splice pipes are not modelled; no claim concerns them.) -/
structure TcpEndpoint where
  fd64 : Nat
  data : List Nat
  begin : Nat
  data_len : Nat
deriving DecidableEq

/-- `TcpEndpoint::new`: a zeroed buffer of `buf_size` bytes. -/
def TcpEndpoint.new (fd64 buf_size : Nat) : TcpEndpoint :=
  { fd64 := fd64, data := List.replicate buf_size 0, begin := 0, data_len := 0 }

/-- The buffer fill after a successful `recv` in `TcpHandler::on_read`
(`src/event/tcp.rs`, `my_endpoint.data_len = recv_len as usize;
my_endpoint.begin = 0;`): `recv` wrote `recv_len` bytes at offset 0. -/
def TcpEndpoint.fillAfterRecv (e : TcpEndpoint) (bytes : List Nat) (recv_len : Nat) :
    TcpEndpoint :=
  { e with data := bytes.take recv_len ++ e.data.drop recv_len
           data_len := recv_len, begin := 0 }

/-- The partial-send accounting used both in `TcpHandler::on_read` and
in `TcpHandler::on_write` (`data_len.saturating_sub(send_len)`,
`begin += send_len`). -/
def TcpEndpoint.sendAccount (e : TcpEndpoint) (send_len : Nat) : TcpEndpoint :=
  { e with data_len := e.data_len - send_len, begin := e.begin + send_len }

/-- The buffer invariant of the spec: `begin + pending ≤ buffer.length`. -/
def TcpEndpoint.Inv (e : TcpEndpoint) : Prop :=
  e.begin + e.data_len ≤ e.data.length

instance (e : TcpEndpoint) : Decidable e.Inv := by
  unfold TcpEndpoint.Inv; infer_instance

/-- `TcpConnection` (splice pipes omitted as above). -/
structure TcpConnection where
  localEp : TcpEndpoint
  remoteEp : TcpEndpoint
  addr_s : String
  create_time : Nat
  last_active_time : Nat
  remote_connecting : Bool
deriving DecidableEq

/-- `TcpConnection::new`. -/
def TcpConnection.new (local_fd remote_fd : Nat) (addr_s : String)
    (create_time buf_size : Nat) (remote_connecting : Bool) : TcpConnection :=
  { localEp := TcpEndpoint.new local_fd buf_size
    remoteEp := TcpEndpoint.new remote_fd buf_size
    addr_s := addr_s
    create_time := create_time
    last_active_time := create_time
    remote_connecting := remote_connecting }

/-- `UdpSession`. -/
structure UdpSession where
  address : Address
  fd64 : Nat
  local_listen_fd : Nat
  addr_s : String
  create_time : Nat
  last_active_time : Nat
deriving DecidableEq

/-! ## Log lines relevant to the claims -/

inductive LogLine where
  | tcpInactiveCleared (addr_s : String)
  | udpInactiveCleared (addr_s : String)
  | tcpClosedConnection (addr_s : String)
deriving DecidableEq

/-! ## `src/manager/mod.rs` — `TcpConnectionManager`

`timeout` is stored in milliseconds (every comparison in the source
uses `timeout.as_millis()`). -/

structure TcpConnectionManager where
  connections : List (Nat × TcpConnection)
  lru : LruCollector Nat Nat
  last_clear_time : Nat
  timeout_ms : Nat
  conn_clear_ratio_u32 : Nat
  conn_clear_min : Nat
  disable_conn_clear : Bool
deriving DecidableEq

/-- `TcpConnectionManager::new_connection`: insert under the local
handle and register the local handle in the LRU. -/
def TcpConnectionManager.new_connection (m : TcpConnectionManager)
    (local_fd remote_fd : Nat) (addr_s : String)
    (create_time buf_size : Nat) (remote_connecting : Bool) :
    TcpConnectionManager :=
  let connection := TcpConnection.new local_fd remote_fd addr_s create_time
    buf_size remote_connecting
  { m with connections := insertA m.connections local_fd connection
           lru := m.lru.new_key local_fd local_fd create_time }

def TcpConnectionManager.get_connection (m : TcpConnectionManager) (fd64 : Nat) :
    Option TcpConnection :=
  lookupA m.connections fd64

/-- `TcpConnectionManager::get_connection_by_any_fd`: direct lookup by
the (local) key, then a scan of the values for a matching remote
handle. -/
def TcpConnectionManager.get_connection_by_any_fd (m : TcpConnectionManager)
    (fd64 : Nat) : Option TcpConnection :=
  match lookupA m.connections fd64 with
  | some conn => some conn
  | none =>
      (m.connections.find? (fun p => decide (p.2.remoteEp.fd64 = fd64))).map Prod.snd

/-- `TcpConnectionManager::erase`: remove the entry stored under the
given key (the table is keyed by the local handle). -/
def TcpConnectionManager.erase (m : TcpConnectionManager) (fd64 : Nat) :
    TcpConnectionManager :=
  { m with connections := removeA m.connections fd64
           lru := (m.lru.erase fd64).1 }

def TcpConnectionManager.update_lru (m : TcpConnectionManager) (fd64 now : Nat) :
    TcpConnectionManager :=
  { m with lru := (m.lru.update fd64 now).1 }

/-- `num_to_clean` of `TcpConnectionManager::clear_inactive`:
`size / ratio + floor`, clamped to `size`. -/
def TcpConnectionManager.sweepBound (m : TcpConnectionManager) : Nat :=
  min (m.connections.length / m.conn_clear_ratio_u32 + m.conn_clear_min)
    m.connections.length

/-- The `timed_out` collection of `TcpConnectionManager::clear_inactive`:
every `(fd, last_active, addr_s)` with `now - last_active > timeout`. -/
def TcpConnectionManager.timedOut (m : TcpConnectionManager) (now : Nat) :
    List (Nat × Nat × String) :=
  (m.connections.filter
    (fun p => decide (u64Sub now p.2.last_active_time > m.timeout_ms))).map
    (fun p => (p.1, p.2.last_active_time, p.2.addr_s))

/-- The `to_remove` list: timed-out entries sorted ascending by
last-active time, truncated to the sweep bound. -/
def TcpConnectionManager.toRemove (m : TcpConnectionManager) (now : Nat) :
    List (Nat × String) :=
  ((sortByKey (fun t => t.2.1) (m.timedOut now)).take m.sweepBound).map
    (fun t => (t.1, t.2.2))

/-- The removal loop of `TcpConnectionManager::clear_inactive`: for each
selected `(fd, addr)`, log the `[tcp]inactive connection … cleared`
line, then `connections.remove(fd); lru.erase(fd);`. -/
def tcpSweepRemove :
    TcpConnectionManager → List (Nat × String) → TcpConnectionManager × List LogLine
  | m, [] => (m, [])
  | m, (fd, addr) :: rest =>
      let m' := { m with connections := removeA m.connections fd
                         lru := (m.lru.erase fd).1 }
      let res := tcpSweepRemove m' rest
      (res.1, LogLine.tcpInactiveCleared addr :: res.2)

/-- `TcpConnectionManager::clear_inactive`: rate-limit (1 s), record the
sweep time, honour the disable flag, then remove the selected entries,
logging one `[tcp]inactive connection … cleared` line each. -/
def TcpConnectionManager.clear_inactive (m : TcpConnectionManager) (now : Nat) :
    TcpConnectionManager × List LogLine :=
  if u64Sub now m.last_clear_time < 1000 then (m, [])
  else
    let m := { m with last_clear_time := now }
    if m.disable_conn_clear then (m, [])
    else tcpSweepRemove m (m.toRemove now)

def TcpConnectionManager.len (m : TcpConnectionManager) : Nat :=
  m.connections.length

/-! ## `src/manager/mod.rs` — `UdpSessionManager` -/

structure UdpSessionManager where
  sessions : List (Address × UdpSession)
  fd64_to_addr : List (Nat × Address)
  lru : LruCollector Address Address
  last_clear_time : Nat
  timeout_ms : Nat
  conn_clear_ratio_u32 : Nat
  conn_clear_min : Nat
  disable_conn_clear : Bool
deriving DecidableEq

/-- `UdpSessionManager::new_session`: install the session under its
client address, the secondary `fd64 → address` index, and the LRU. -/
def UdpSessionManager.new_session (m : UdpSessionManager) (address : Address)
    (fd64 local_listen_fd : Nat) (addr_s : String) (create_time : Nat) :
    UdpSessionManager :=
  let session : UdpSession :=
    { address := address, fd64 := fd64, local_listen_fd := local_listen_fd
      addr_s := addr_s, create_time := create_time
      last_active_time := create_time }
  { m with sessions := insertA m.sessions address session
           fd64_to_addr := insertA m.fd64_to_addr fd64 address
           lru := m.lru.new_key address address create_time }

/-- `UdpSessionManager::erase`: drop the matching secondary-index
entries, log the `[udp]inactive connection … cleared` line, remove the
session and LRU entry, and decrement the udp session gauge
(`TrafficStats::global().dec_udp_sessions()` — the global stats are
threaded explicitly here). -/
def UdpSessionManager.erase (m : UdpSessionManager) (stats : TrafficStats)
    (address : Address) : UdpSessionManager × TrafficStats × List LogLine :=
  let fd64_to_addr' := m.fd64_to_addr.filter (fun p => decide (p.2 ≠ address))
  let addr_s :=
    match lookupA m.sessions address with
    | some session => session.addr_s
    | none => address.toString
  ({ m with sessions := removeA m.sessions address
            fd64_to_addr := fd64_to_addr'
            lru := (m.lru.erase address).1 },
   stats.dec_udp_sessions,
   [LogLine.udpInactiveCleared addr_s])

def UdpSessionManager.sweepBound (m : UdpSessionManager) : Nat :=
  min (m.sessions.length / m.conn_clear_ratio_u32 + m.conn_clear_min)
    m.sessions.length

def UdpSessionManager.timedOut (m : UdpSessionManager) (now : Nat) :
    List (Address × Nat) :=
  (m.sessions.filter
    (fun p => decide (u64Sub now p.2.last_active_time > m.timeout_ms))).map
    (fun p => (p.1, p.2.last_active_time))

def UdpSessionManager.toRemove (m : UdpSessionManager) (now : Nat) :
    List Address :=
  ((sortByKey (fun t => t.2) (m.timedOut now)).take m.sweepBound).map Prod.fst

/-- The removal loop of `UdpSessionManager::clear_inactive`: the body is
only `sessions.remove(addr); lru.erase(addr);` — it does not call
`erase`, emits no log line, and does not touch `fd64_to_addr`. -/
def udpSweepRemove : UdpSessionManager → List Address → UdpSessionManager
  | m, [] => m
  | m, addr :: rest =>
      udpSweepRemove
        { m with sessions := removeA m.sessions addr
                 lru := (m.lru.erase addr).1 } rest

/-- `UdpSessionManager::clear_inactive`: same gating and sweep as the
TCP table, but the loop neither logs nor decrements the udp session
gauge (`TrafficStats::global()` is never consulted); the stats pass
through unchanged and no log lines are produced. -/
def UdpSessionManager.clear_inactive (m : UdpSessionManager)
    (stats : TrafficStats) (now : Nat) :
    UdpSessionManager × TrafficStats × List LogLine :=
  if u64Sub now m.last_clear_time < 1000 then (m, stats, [])
  else
    let m := { m with last_clear_time := now }
    if m.disable_conn_clear then (m, stats, [])
    else (udpSweepRemove m (m.toRemove now), stats, [])

def UdpSessionManager.len (m : UdpSessionManager) : Nat := m.sessions.length

/-! ## `src/event/mod.rs` — `TokenManager` and the event-loop state -/

structure TokenManager where
  fd64_to_token : List (Nat × Nat)
  token_to_fd64 : List (Nat × Nat)
  counter : Nat
deriving DecidableEq

def TokenManager.new : TokenManager :=
  { fd64_to_token := [], token_to_fd64 := [], counter := 1 }

/-- `TokenManager::generate_token`. -/
def TokenManager.generate_token (tm : TokenManager) (fd64 : Nat) :
    TokenManager × Nat :=
  let token := tm.counter
  ({ fd64_to_token := insertA tm.fd64_to_token fd64 token
     token_to_fd64 := insertA tm.token_to_fd64 token fd64
     counter := (tm.counter + 1) % U64MOD }, token)

def TokenManager.get_token (tm : TokenManager) (fd64 : Nat) : Option Nat :=
  lookupA tm.fd64_to_token fd64

/-- `TokenManager::remove`: drop the handle and its token from both
directions. -/
def TokenManager.remove (tm : TokenManager) (fd64 : Nat) : TokenManager :=
  match lookupA tm.fd64_to_token fd64 with
  | none => { tm with fd64_to_token := removeA tm.fd64_to_token fd64 }
  | some token =>
      { tm with fd64_to_token := removeA tm.fd64_to_token fd64
                token_to_fd64 := removeA tm.token_to_fd64 token }

/-- The slice of `EventLoop` state touched by the TCP handler models
(the global `TrafficStats` singleton is threaded explicitly; the
`mio::Poll` registration set itself is represented by the token map). -/
structure EventLoopState where
  fd_manager : FdManager
  tcp_manager : TcpConnectionManager
  token_manager : TokenManager
  stats : TrafficStats
  max_connections : Nat
deriving DecidableEq

/-! ## `src/event/tcp.rs` — `TcpHandler` -/

/-- Outcomes of the `libc` calls made during one `on_read` callback
(the OS is an oracle of the model): the connect-completion `SO_ERROR`
value, the `recv` result with the bytes it wrote and whether a negative
result was `EWOULDBLOCK`, and likewise for `send`. -/
structure OsReadOutcome where
  so_error : Int
  recv_len : Int
  recv_bytes : List Nat
  recv_would_block : Bool
  send_len : Int
  send_would_block : Bool

/-- The Linux errno for "connect in progress" (`libc::EINPROGRESS`). -/
def EINPROGRESS : Int := 115

/-- `TcpHandler::close_connection`: close both handles through the
registry (issuing the OS `close` on any returned raw descriptor),
deregister both streams from the poller, log, decrement the tcp
connection gauge, and drop both token-map entries.  It does NOT touch
the connection table itself. -/
def TcpHandler.close_connection (s : EventLoopState) (fd64 other_fd64 : Nat) :
    EventLoopState :=
  let (fdm1, _raw1) := s.fd_manager.close fd64
  let (fdm2, _raw2) := fdm1.close other_fd64
  let stats' := s.stats.dec_tcp_connections
  let tm1 := s.token_manager.remove fd64
  let tm2 := tm1.remove other_fd64
  { s with fd_manager := fdm2, stats := stats', token_manager := tm2 }

/-- Write an updated connection record back through its shared
`Arc<RwLock<TcpConnection>>` (the table stores the record under the
local handle). -/
def EventLoopState.storeConn (s : EventLoopState) (key : Nat)
    (c : TcpConnection) : EventLoopState :=
  { s with tcp_manager :=
      { s.tcp_manager with connections := insertA s.tcp_manager.connections key c } }

/-- `TcpHandler::on_read`, with the syscall results supplied by
`os : OsReadOutcome` and the clock by `now` (log emission is not
modelled here).  The structure follows the source: existence check,
`get_connection_by_any_fd`, the connect-completion branch on the remote
side, the skip guards, `recv` (with the traffic-stats update placed
before the result checks, as in the source), the EOF/error closes via
`close_connection` + `erase(&fd64)`, the buffer fill, the immediate
`send` with its stats update and partial-send accounting, and the
final LRU touch. -/
def TcpHandler.on_read (s : EventLoopState) (fd64 : Nat) (os : OsReadOutcome)
    (now : Nat) : EventLoopState :=
  if ¬ s.fd_manager.exist fd64 then s
  else
    match s.tcp_manager.get_connection_by_any_fd fd64 with
    | none => s
    | some conn =>
      if fd64 = conn.remoteEp.fd64 ∧ conn.remote_connecting then
        match s.fd_manager.to_fd fd64 with
        | none => s
        | some _fd =>
          if os.so_error = 0 then
            -- connection established: clear the flag on the shared record
            let conn' := { conn with remote_connecting := false }
            s.storeConn conn.localEp.fd64 conn'
          else
            let other_fd64 := conn.localEp.fd64
            match s.fd_manager.to_fd fd64, s.fd_manager.to_fd other_fd64 with
            | some _, some _ =>
                let s1 := TcpHandler.close_connection s fd64 other_fd64
                { s1 with tcp_manager := s1.tcp_manager.erase fd64 }
            | _, _ => s
      else
        let my_fd64 := if fd64 = conn.localEp.fd64 then conn.localEp.fd64
                       else conn.remoteEp.fd64
        let other_fd64 := if fd64 = conn.localEp.fd64 then conn.remoteEp.fd64
                          else conn.localEp.fd64
        match s.fd_manager.to_fd my_fd64, s.fd_manager.to_fd other_fd64 with
        | some _my_fd, some _other_fd =>
          if conn.remote_connecting ∧ fd64 = conn.localEp.fd64 then s
          else
            let is_local := fd64 = conn.localEp.fd64
            let my_endpoint := if is_local then conn.localEp else conn.remoteEp
            if my_endpoint.data_len ≠ 0 then s
            else
              -- recv, and the stats update that precedes every check
              let s := { s with stats :=
                s.stats.add_tcp_received (isizeToUsize os.recv_len) }
              if os.recv_len = 0 then
                let s1 := TcpHandler.close_connection s fd64 other_fd64
                { s1 with tcp_manager := s1.tcp_manager.erase fd64 }
              else if os.recv_len < 0 then
                if os.recv_would_block then s
                else
                  let s1 := TcpHandler.close_connection s fd64 other_fd64
                  { s1 with tcp_manager := s1.tcp_manager.erase fd64 }
              else
                let filled := my_endpoint.fillAfterRecv os.recv_bytes
                  os.recv_len.toNat
                let writeBack := fun (ep : TcpEndpoint) =>
                  if is_local then { conn with localEp := ep }
                  else { conn with remoteEp := ep }
                match s.fd_manager.to_fd other_fd64 with
                | none => s.storeConn conn.localEp.fd64 (writeBack filled)
                | some _other_fd_send =>
                  let s := { s with stats :=
                    s.stats.add_tcp_sent (isizeToUsize os.send_len) }
                  if os.send_len > 0 then
                    let sent := os.send_len.toNat
                    let afterSend := filled.sendAccount sent
                    let s := s.storeConn conn.localEp.fd64 (writeBack afterSend)
                    -- (re-registration of WRITABLE interest touches only the
                    -- poller, not the modelled state)
                    { s with tcp_manager := s.tcp_manager.update_lru fd64 now }
                  else if os.send_len = 0 then
                    let s := s.storeConn conn.localEp.fd64 (writeBack filled)
                    let s1 := TcpHandler.close_connection s fd64 other_fd64
                    { s1 with tcp_manager := s1.tcp_manager.erase fd64 }
                  else
                    if os.send_would_block then
                      let s := s.storeConn conn.localEp.fd64 (writeBack filled)
                      { s with tcp_manager := s.tcp_manager.update_lru fd64 now }
                    else
                      let s := s.storeConn conn.localEp.fd64 (writeBack filled)
                      let s1 := TcpHandler.close_connection s fd64 other_fd64
                      { s1 with tcp_manager := s1.tcp_manager.erase fd64 }
        | _, _ => s

/-- `TcpHandler::on_accept` from the point where `listener.accept`
returned a stream (`client_raw_fd`, `client_addr`): the max-connections
guard, outbound socket creation (`remote_raw_fd < 0` models a failed
`socket()`, which closes the client and returns), the non-blocking
`connect` whose result/errno decide `remote_connecting`, registration
of both sockets, table insert, and gauge increment.  The source inspects
only `ret != 0 && errno == EINPROGRESS`; any other connect failure falls
through to registration and insertion. -/
def TcpHandler.on_accept (s : EventLoopState) (client_raw_fd : Int)
    (client_addr : String) (remote_raw_fd : Int)
    (connect_ret connect_errno : Int) (now buf_size : Nat) : EventLoopState :=
  if s.tcp_manager.len ≥ s.max_connections then s
  else if remote_raw_fd < 0 then s
  else
    let remote_connecting := connect_ret ≠ 0 ∧ connect_errno = EINPROGRESS
    let (fdm1, local_fd64) := s.fd_manager.create client_raw_fd now
    let (fdm2, remote_fd64) := fdm1.create remote_raw_fd now
    let (tm1, _local_token) := s.token_manager.generate_token local_fd64
    let (tm2, _remote_token) := tm1.generate_token remote_fd64
    let tcpm := s.tcp_manager.new_connection local_fd64 remote_fd64
      client_addr now buf_size (decide remote_connecting)
    { s with fd_manager := fdm2, token_manager := tm2, tcp_manager := tcpm
             stats := s.stats.inc_tcp_connections }

/-! ## `src/event/udp.rs` — the stats updates of `UdpHandler`

`on_response` updates `udp_bytes_received` with `recv_len as usize`
before checking `recv_len < 0`, and `udp_bytes_sent` with
`send_len as usize` before checking `send_len < 0`; `on_datagram` does
the same for its `send`. -/

def UdpHandler.on_response_recv_stats (stats : TrafficStats) (recv_len : Int) :
    TrafficStats :=
  stats.add_udp_received (isizeToUsize recv_len)

def UdpHandler.send_stats (stats : TrafficStats) (send_len : Int) :
    TrafficStats :=
  stats.add_udp_sent (isizeToUsize send_len)

/-! ## Manager constructors (`TcpConnectionManager::new`,
`UdpSessionManager::new`) -/

def TcpConnectionManager.mk_new (timeout_ms ratio_arg min_arg : Nat)
    (disable : Bool) : TcpConnectionManager :=
  { connections := [], lru := LruCollector.new, last_clear_time := 0
    timeout_ms := timeout_ms, conn_clear_ratio_u32 := ratio_arg
    conn_clear_min := min_arg, disable_conn_clear := disable }

def UdpSessionManager.mk_new (timeout_ms ratio_arg min_arg : Nat)
    (disable : Bool) : UdpSessionManager :=
  { sessions := [], fd64_to_addr := [], lru := LruCollector.new
    last_clear_time := 0, timeout_ms := timeout_ms
    conn_clear_ratio_u32 := ratio_arg, conn_clear_min := min_arg
    disable_conn_clear := disable }

/-! ## Concrete states used to evaluate the handler models -/

/-- A live connection: local handle 1 (raw fd 10), remote handle 2
(raw fd 11), connect already completed. -/
def exConn : TcpConnection := TcpConnection.new 1 2 "10.0.0.7:4242" 100 4 false

def exFdManager : FdManager :=
  { fd_to_fd64 := [(10, 1), (11, 2)], fd64_to_fd := [(1, 10), (2, 11)]
    fd_info := [(1, 100), (2, 100)], counter := 3 }

def exTokenManager : TokenManager :=
  { fd64_to_token := [(1, 1), (2, 2)], token_to_fd64 := [(1, 1), (2, 2)]
    counter := 3 }

def exStats : TrafficStats :=
  { tcp_bytes_received := 5, tcp_bytes_sent := 0, udp_bytes_received := 0
    udp_bytes_sent := 0, tcp_connections := 1, udp_sessions := 0 }

/-- Event-loop state with the single connection `exConn` in the table
(keyed, as always, by the local handle 1). -/
def exEvState : EventLoopState :=
  { fd_manager := exFdManager
    tcp_manager :=
      { (TcpConnectionManager.mk_new 360000 30 1 false) with
        connections := [(1, exConn)]
        lru := LruCollector.new.new_key 1 1 100 }
    token_manager := exTokenManager
    stats := exStats
    max_connections := 20000 }

/-- `recv` returned 0 (EOF) — a per-flow fatal event. -/
def exOsEof : OsReadOutcome :=
  { so_error := 0, recv_len := 0, recv_bytes := [], recv_would_block := false
    send_len := 0, send_would_block := false }

/-- `recv` returned -1 with `EWOULDBLOCK` — the transient no-data case. -/
def exOsWouldBlock : OsReadOutcome :=
  { so_error := 0, recv_len := -1, recv_bytes := [], recv_would_block := true
    send_len := 0, send_would_block := false }

/-- Fresh event-loop state (empty tables, fresh registries). -/
def exEmptyState : EventLoopState :=
  { fd_manager := FdManager.new
    tcp_manager := TcpConnectionManager.mk_new 360000 30 1 false
    token_manager := TokenManager.new
    stats := TrafficStats.default
    max_connections := 20000 }

def exUdpAddr : Address := Address.from_ipv4 127 0 0 1 5353

/-- A UDP table holding one session created at time 0 (idle ever since),
with the matching gauge value 1. -/
def exUdpMgr : UdpSessionManager :=
  (UdpSessionManager.mk_new 180000 30 1 false).new_session exUdpAddr 3 1
    "127.0.0.1:5353" 0

def exUdpStats : TrafficStats :=
  { TrafficStats.default with udp_sessions := 1 }

/-- A TCP table holding one connection created at time 0 (idle ever
since). -/
def exTcpMgr : TcpConnectionManager :=
  (TcpConnectionManager.mk_new 360000 30 1 false).new_connection 1 2
    "10.0.0.7:4242" 0 4 false

/-- Structural invariant tying the four containers of `LruCollector`
together: the heap is sorted ascending by time; heap keys, value keys
and access-time keys agree (as multisets, the latter without
duplicates); every heap entry carries its key's stored access time; and
every stored key appears in `time_list`. -/
def LruInv {K T : Type} [DecidableEq K] (s : LruCollector K T) : Prop :=
  List.Sorted (keyLe Prod.fst) s.min_heap ∧
  (s.min_heap.map Prod.snd).Perm (keysA s.access_times) ∧
  (keysA s.values).Perm (keysA s.access_times) ∧
  (keysA s.access_times).Nodup ∧
  (∀ p ∈ s.min_heap, lookupA s.access_times p.2 = some p.1) ∧
  (∀ k ∈ keysA s.access_times, k ∈ s.time_list)

/-- The accumulator semantics of the digit loops: fold digit values over
a running accumulator (as `read_number` and `from_str_radix` do). -/
def valFold (radix : Nat) (ds : List Char) (acc : Nat) : Nat :=
  ds.foldl (fun a c => a * radix + (toDigitQ radix c).getD 0) acc

/-- `':' :: g` for every group: the shape of a colon-joined group list
after its first group. -/
def prefixColon : List (List Char) → List Char
  | [] => []
  | g :: rest => ':' :: (g ++ prefixColon rest)

/-- The v6 scope id (and, vacuously for v4, `0`). -/
def Address.scope_id_of : Address → Nat
  | .v4 _ _ _ _ _ => 0
  | .v6 _ _ _ _ _ _ _ _ _ _ sc => sc

/-! # Theorems -/

/-! ## Generic association-list lemmas -/

theorem lookupA_mem {K V : Type} [DecidableEq K] {l : List (K × V)} {k : K}
    {v : V} (h : lookupA l k = some v) : (k, v) ∈ l := by
  induction l with
  | nil => simp [lookupA] at h
  | cons p rest ih =>
    obtain ⟨k', v'⟩ := p
    by_cases hk : k' = k
    · subst hk
      simp [lookupA] at h
      subst h
      exact List.mem_cons_self _ _
    · simp [lookupA, hk] at h
      exact List.mem_cons_of_mem _ (ih h)

theorem mem_insertA {K V : Type} [DecidableEq K] {l : List (K × V)} {k : K}
    {v : V} {p : K × V} (h : p ∈ insertA l k v) : p = (k, v) ∨ p ∈ l := by
  induction l with
  | nil => simpa [insertA] using h
  | cons q rest ih =>
    obtain ⟨k', v'⟩ := q
    by_cases hk : k' = k
    · subst hk
      simp [insertA] at h
      rcases h with h | h
      · exact Or.inl h
      · exact Or.inr (List.mem_cons_of_mem _ h)
    · simp [insertA, hk] at h
      rcases h with h | h
      · exact Or.inr (by simp [h])
      · rcases ih h with h' | h'
        · exact Or.inl h'
        · exact Or.inr (List.mem_cons_of_mem _ h')

theorem U64MOD_eq : U64MOD = 18446744073709551616 := by norm_num [U64MOD]

/-- C10: `dec_tcp_connections` / `dec_udp_sessions` perform an
unconditional wrapping decrement of the population gauges: at 0 the
gauge becomes `2^64 - 1` (no saturation, no error); at a positive value
it decreases by one. -/
theorem dec_gauges_wrap (s : TrafficStats)
    (htcp : s.tcp_connections < U64MOD) (hudp : s.udp_sessions < U64MOD) :
    (s.tcp_connections = 0 →
      s.dec_tcp_connections.tcp_connections = U64MOD - 1) ∧
    (s.udp_sessions = 0 →
      s.dec_udp_sessions.udp_sessions = U64MOD - 1) ∧
    (0 < s.tcp_connections →
      s.dec_tcp_connections.tcp_connections = s.tcp_connections - 1) ∧
    (0 < s.udp_sessions →
      s.dec_udp_sessions.udp_sessions = s.udp_sessions - 1) := by
  unfold TrafficStats.dec_tcp_connections TrafficStats.dec_udp_sessions
  dsimp only
  rw [U64MOD_eq] at htcp hudp ⊢
  refine ⟨fun h0 => ?_, fun h0 => ?_, fun hpos => ?_, fun hpos => ?_⟩ <;> omega

/-- Witness for `dec_gauges_wrap` at the zeroed default stats. -/
theorem dec_gauges_wrap_witness :
    TrafficStats.default.tcp_connections < U64MOD ∧
    TrafficStats.default.udp_sessions < U64MOD ∧
    ((TrafficStats.default.tcp_connections = 0 →
        TrafficStats.default.dec_tcp_connections.tcp_connections = U64MOD - 1) ∧
     (TrafficStats.default.udp_sessions = 0 →
        TrafficStats.default.dec_udp_sessions.udp_sessions = U64MOD - 1) ∧
     (0 < TrafficStats.default.tcp_connections →
        TrafficStats.default.dec_tcp_connections.tcp_connections =
          TrafficStats.default.tcp_connections - 1) ∧
     (0 < TrafficStats.default.udp_sessions →
        TrafficStats.default.dec_udp_sessions.udp_sessions =
          TrafficStats.default.udp_sessions - 1)) :=
  ⟨by decide, by decide, dec_gauges_wrap TrafficStats.default (by decide) (by decide)⟩

/-! ## C9: the registry never allocates handle 0 -/

theorem runOps_handles_pos (ops : List FdOp) : ∀ (m : FdManager),
    1 ≤ m.counter → m.counter + ops.length ≤ U64MOD →
    (∀ p ∈ m.fd_to_fd64, 1 ≤ p.2) →
    (∀ h ∈ (m.runOps ops).2, 1 ≤ h) ∧
    (∀ p ∈ (m.runOps ops).1.fd_to_fd64, 1 ≤ p.2) := by
  have hU := U64MOD_eq
  induction ops with
  | nil =>
    intro m _ _ h3
    simpa [FdManager.runOps] using h3
  | cons op rest ih =>
    intro m h1 h2 h3
    have hlen : m.counter + rest.length + 1 ≤ U64MOD := by
      simp only [List.length_cons] at h2
      omega
    cases op with
    | create raw t =>
      by_cases hEdge : m.counter + 1 < U64MOD
      · have hih := ih
          { fd_to_fd64 := insertA m.fd_to_fd64 raw m.counter
            fd64_to_fd := insertA m.fd64_to_fd m.counter raw
            fd_info := insertA m.fd_info m.counter t
            counter := (m.counter + 1) % U64MOD }
          (by show 1 ≤ (m.counter + 1) % U64MOD
              rw [Nat.mod_eq_of_lt hEdge]; omega)
          (by show (m.counter + 1) % U64MOD + rest.length ≤ U64MOD
              rw [Nat.mod_eq_of_lt hEdge]; omega)
          (by
            intro p hp
            rcases mem_insertA hp with h | h
            · subst h; exact h1
            · exact h3 p h)
        simp only [FdManager.runOps, FdManager.create]
        refine ⟨?_, hih.2⟩
        intro h hmem
        simp at hmem
        rcases hmem with h' | h'
        · omega
        · exact hih.1 h h'
      · have hnil : rest = [] := List.length_eq_zero.mp (by omega)
        subst hnil
        simp only [FdManager.runOps, FdManager.create]
        constructor
        · intro h hmem
          simp at hmem
          omega
        · intro p hp
          rcases mem_insertA hp with h | h
          · subst h; exact h1
          · exact h3 p h
    | get_or_create raw t =>
      simp only [FdManager.runOps, FdManager.get_or_create]
      cases hlook : lookupA m.fd_to_fd64 raw with
      | some fd64 =>
        have hfd : 1 ≤ fd64 := h3 _ (lookupA_mem hlook)
        have hih := ih m h1 (by omega) h3
        refine ⟨?_, hih.2⟩
        intro h hmem
        simp at hmem
        rcases hmem with h' | h'
        · omega
        · exact hih.1 h h'
      | none =>
        simp only [FdManager.create]
        by_cases hEdge : m.counter + 1 < U64MOD
        · have hih := ih
            { fd_to_fd64 := insertA m.fd_to_fd64 raw m.counter
              fd64_to_fd := insertA m.fd64_to_fd m.counter raw
              fd_info := insertA m.fd_info m.counter t
              counter := (m.counter + 1) % U64MOD }
            (by show 1 ≤ (m.counter + 1) % U64MOD
                rw [Nat.mod_eq_of_lt hEdge]; omega)
            (by show (m.counter + 1) % U64MOD + rest.length ≤ U64MOD
                rw [Nat.mod_eq_of_lt hEdge]; omega)
            (by
              intro p hp
              rcases mem_insertA hp with h | h
              · subst h; exact h1
              · exact h3 p h)
          refine ⟨?_, hih.2⟩
          intro h hmem
          simp at hmem
          rcases hmem with h' | h'
          · omega
          · exact hih.1 h h'
        · have hnil : rest = [] := List.length_eq_zero.mp (by omega)
          subst hnil
          simp only [FdManager.runOps]
          constructor
          · intro h hmem
            simp at hmem
            omega
          · intro p hp
            rcases mem_insertA hp with h | h
            · subst h; exact h1
            · exact h3 p h
    | close fd64 =>
      simp only [FdManager.runOps, FdManager.close]
      cases hlook : lookupA m.fd64_to_fd fd64 with
      | none => exact ih m h1 (by omega) h3
      | some raw =>
        refine ih _ h1 (by show m.counter + rest.length ≤ U64MOD; omega) ?_
        intro p hp
        exact h3 p (List.mem_of_mem_filter hp)

/-- C9: starting from `FdManager::new` (counter 1), no sequence of fewer
than `2^64` registry operations ever hands out `Fd64(0)`, the sentinel
under which `register_listen_socket` files both listener tokens — so a
per-flow handle can never collide with the listener sentinel. -/
theorem fd64_zero_never_allocated (ops : List FdOp)
    (hlen : ops.length < U64MOD) :
    FdManager.new.counter = 1 ∧
    ∀ h ∈ (FdManager.new.runOps ops).2, h ≠ listenSentinelFd64 := by
  refine ⟨rfl, fun h hmem => ?_⟩
  have hpos := (runOps_handles_pos ops FdManager.new (by simp [FdManager.new])
    (by simp [FdManager.new]; omega) (by simp [FdManager.new])).1 h hmem
  simp only [listenSentinelFd64]
  omega

/-- Witness for `fd64_zero_never_allocated` on a concrete operation
sequence. -/
theorem fd64_zero_never_allocated_witness :
    ([FdOp.create 5 0, FdOp.get_or_create 5 1, FdOp.close 1,
      FdOp.get_or_create 5 2] : List FdOp).length < U64MOD ∧
    (FdManager.new.counter = 1 ∧
     ∀ h ∈ (FdManager.new.runOps
        [FdOp.create 5 0, FdOp.get_or_create 5 1, FdOp.close 1,
         FdOp.get_or_create 5 2]).2, h ≠ listenSentinelFd64) :=
  ⟨by decide,
   fd64_zero_never_allocated
     [FdOp.create 5 0, FdOp.get_or_create 5 1, FdOp.close 1,
      FdOp.get_or_create 5 2] (by decide)⟩

/-! ## C1, C2, C3, C4: evaluations exhibiting the divergences -/

/-- C1 (divergence evaluation): a fatal event (`recv == 0`, EOF) arriving
on the REMOTE handle (2) of the connection keyed by local handle 1:
`on_read` closes both descriptors and decrements the gauge, but
`tcp_manager.erase(&fd64)` removes nothing because the table is keyed by
the local handle — the record is still present afterwards. -/
theorem on_read_remote_eof_leaves_table_entry :
    (TcpHandler.on_read exEvState 2 exOsEof 1000).tcp_manager.len = 1 ∧
    ((TcpHandler.on_read exEvState 2 exOsEof 1000).tcp_manager.get_connection 1).isSome
      = true ∧
    (TcpHandler.on_read exEvState 2 exOsEof 1000).fd_manager.exist 1 = false ∧
    (TcpHandler.on_read exEvState 2 exOsEof 1000).fd_manager.exist 2 = false ∧
    (TcpHandler.on_read exEvState 2 exOsEof 1000).stats.tcp_connections = 0 ∧
    (TcpHandler.on_read exEvState 1 exOsEof 1000).tcp_manager.len = 0 := by
  decide

/-- C2 (divergence evaluation): `connect` returns `-1` with
`errno = ECONNREFUSED (111) ≠ EINPROGRESS (115)`.  `on_accept`
nevertheless registers both sockets in the token map, inserts the
connection (with `remote_connecting = false`) and increments the gauge,
instead of closing both sockets and returning. -/
theorem on_accept_connect_error_still_registers :
    (TcpHandler.on_accept exEmptyState 10 "1.2.3.4:5" 11 (-1) 111 50 4).tcp_manager.len
      = 1 ∧
    ((TcpHandler.on_accept exEmptyState 10 "1.2.3.4:5" 11 (-1) 111 50
        4).tcp_manager.get_connection 1).map TcpConnection.remote_connecting
      = some false ∧
    ((TcpHandler.on_accept exEmptyState 10 "1.2.3.4:5" 11 (-1) 111 50
        4).token_manager.get_token 1).isSome = true ∧
    ((TcpHandler.on_accept exEmptyState 10 "1.2.3.4:5" 11 (-1) 111 50
        4).token_manager.get_token 2).isSome = true ∧
    (TcpHandler.on_accept exEmptyState 10 "1.2.3.4:5" 11 (-1) 111 50
        4).fd_manager.exist 1 = true ∧
    (TcpHandler.on_accept exEmptyState 10 "1.2.3.4:5" 11 (-1) 111 50
        4).fd_manager.exist 2 = true ∧
    (TcpHandler.on_accept exEmptyState 10 "1.2.3.4:5" 11 (-1) 111 50
        4).stats.tcp_connections = 1 := by
  decide

/-- C3 (divergence evaluation): `recv` fails with `-1`/`EWOULDBLOCK`, yet
`add_tcp_received(recv_len as usize)` has already added `2^64 - 1`: the
rx byte counter drops from 5 to 4 (a wrapping decrement), while the
connection itself is untouched.  The same cast drives the UDP rx counter
from 0 to `2^64 - 1` in `on_response`. -/
theorem on_read_failed_recv_decrements_rx :
    exEvState.stats.tcp_bytes_received = 5 ∧
    (TcpHandler.on_read exEvState 1 exOsWouldBlock 1000).stats.tcp_bytes_received
      = 4 ∧
    (TcpHandler.on_read exEvState 1 exOsWouldBlock 1000).tcp_manager.len = 1 ∧
    (UdpHandler.on_response_recv_stats exUdpStats (-1)).udp_bytes_received
      = U64MOD - 1 := by
  decide

/-- C4 (divergence evaluation): the UDP sweep evicts the idle session
but emits no `[udp]inactive connection … cleared` line and leaves the
udp session gauge at 1 while the table is empty (and also leaks the
`fd64_to_addr` entry); `UdpSessionManager::erase` on the same state
shows the log line and gauge decrement the claim expects. -/
theorem udp_clear_inactive_skips_log_and_gauge :
    (UdpSessionManager.clear_inactive exUdpMgr exUdpStats 200001).1.sessions.length
      = 0 ∧
    (UdpSessionManager.clear_inactive exUdpMgr exUdpStats 200001).2.1.udp_sessions
      = 1 ∧
    (UdpSessionManager.clear_inactive exUdpMgr exUdpStats 200001).2.2 = [] ∧
    (UdpSessionManager.clear_inactive exUdpMgr exUdpStats 200001).1.fd64_to_addr.length
      = 1 ∧
    (UdpSessionManager.erase exUdpMgr exUdpStats exUdpAddr).2.1.udp_sessions = 0 ∧
    (UdpSessionManager.erase exUdpMgr exUdpStats exUdpAddr).2.2 =
      [LogLine.udpInactiveCleared "127.0.0.1:5353"] := by
  decide

/-! ## C6: the endpoint buffer invariant -/

/-- C6: `begin + data_len ≤ data.len()` holds for a fresh endpoint and
is preserved by (a) the fill after a successful `recv` of `rl` bytes
(`rl` bounded by the buffer size, `recv` wrote exactly `rl` bytes),
(b) the partial-send accounting of `on_read` applied to the just-filled
endpoint, and (c) the partial-flush accounting of `on_write`
(`begin += sent, data_len -= sent` with `sent` at most the pending
length, as `send` never reports more than it was given). -/
theorem tcp_endpoint_inv_preserved (fd buf_size : Nat) (e : TcpEndpoint)
    (bytes : List Nat) (rl sl sl2 : Nat)
    (hInv : e.Inv) (hrl : rl ≤ e.data.length) (hbytes : bytes.length = rl)
    (hsl : sl ≤ (e.fillAfterRecv bytes rl).data_len) (hsl2 : sl2 ≤ e.data_len) :
    (TcpEndpoint.new fd buf_size).Inv ∧
    (e.fillAfterRecv bytes rl).Inv ∧
    ((e.fillAfterRecv bytes rl).sendAccount sl).Inv ∧
    (e.sendAccount sl2).Inv := by
  unfold TcpEndpoint.Inv TcpEndpoint.new TcpEndpoint.fillAfterRecv
    TcpEndpoint.sendAccount at *
  simp only [List.length_append, List.length_take, List.length_drop,
    List.length_replicate] at *
  refine ⟨by omega, by omega, by omega, by omega⟩

/-- Witness for `tcp_endpoint_inv_preserved` on a 4-byte endpoint
receiving 2 bytes and flushing 1. -/
theorem tcp_endpoint_inv_preserved_witness :
    (TcpEndpoint.new 9 4).Inv ∧
    (2 ≤ (TcpEndpoint.new 9 4).data.length) ∧
    (((TcpEndpoint.new 9 4).Inv ∧
      ((TcpEndpoint.new 9 4).fillAfterRecv [7, 8] 2).Inv ∧
      (((TcpEndpoint.new 9 4).fillAfterRecv [7, 8] 2).sendAccount 1).Inv ∧
      ((TcpEndpoint.new 9 4).sendAccount 0).Inv)) :=
  ⟨by decide, by decide,
   tcp_endpoint_inv_preserved 9 4 (TcpEndpoint.new 9 4) [7, 8] 2 1 0
     (by decide) (by decide) (by decide) (by decide) (by decide)⟩

/-! ## C5: the bounded eviction sweep -/

theorem sortByKey_sorted {β : Type} (key : β → Nat) (l : List β) :
    List.Sorted (keyLe key) (sortByKey key l) :=
  List.sorted_insertionSort _ l

theorem sortByKey_perm {β : Type} (key : β → Nat) (l : List β) :
    (sortByKey key l).Perm l :=
  List.perm_insertionSort _ l

theorem sorted_take_drop_le {β : Type} (key : β → Nat) (l : List β) (k : Nat) :
    ∀ x ∈ (sortByKey key l).take k, ∀ y ∈ (sortByKey key l).drop k,
      key x ≤ key y := by
  have hs : List.Pairwise (keyLe key) ((sortByKey key l).take k ++
      (sortByKey key l).drop k) := by
    rw [List.take_append_drop]
    exact sortByKey_sorted key l
  exact (List.pairwise_append.mp hs).2.2

theorem mem_removeA {K V : Type} [DecidableEq K] {l : List (K × V)} {k : K}
    {p : K × V} : p ∈ removeA l k ↔ p ∈ l ∧ p.1 ≠ k := by
  simp [removeA, List.mem_filter]

theorem tcpSweepRemove_connections (rs : List (Nat × String)) :
    ∀ (m : TcpConnectionManager) (p : Nat × TcpConnection),
      p ∈ (tcpSweepRemove m rs).1.connections ↔
        p ∈ m.connections ∧ p.1 ∉ rs.map Prod.fst := by
  induction rs with
  | nil => intro m p; simp [tcpSweepRemove]
  | cons r rest ih =>
    intro m p
    obtain ⟨fd, addr⟩ := r
    simp only [tcpSweepRemove]
    rw [ih]
    simp only [mem_removeA]
    simp only [List.map_cons, List.mem_cons]
    constructor
    · rintro ⟨⟨hm, hne⟩, hnotin⟩
      exact ⟨hm, by simp [hne, hnotin]⟩
    · rintro ⟨hm, hnot⟩
      simp only [not_or] at hnot
      exact ⟨⟨hm, hnot.1⟩, hnot.2⟩

theorem udpSweepRemove_sessions (rs : List Address) :
    ∀ (m : UdpSessionManager) (p : Address × UdpSession),
      p ∈ (udpSweepRemove m rs).sessions ↔
        p ∈ m.sessions ∧ p.1 ∉ rs := by
  induction rs with
  | nil => intro m p; simp [udpSweepRemove]
  | cons addr rest ih =>
    intro m p
    simp only [udpSweepRemove]
    rw [ih]
    simp only [mem_removeA]
    simp only [List.mem_cons]
    constructor
    · rintro ⟨⟨hm, hne⟩, hnotin⟩
      exact ⟨hm, by simp [hne, hnotin]⟩
    · rintro ⟨hm, hnot⟩
      simp only [not_or] at hnot
      exact ⟨⟨hm, hnot.1⟩, hnot.2⟩

theorem tcp_mem_timedOut {m : TcpConnectionManager} {now : Nat}
    {p : Nat × TcpConnection} (hp : p ∈ m.connections)
    (ht : u64Sub now p.2.last_active_time > m.timeout_ms) :
    (p.1, p.2.last_active_time, p.2.addr_s) ∈ m.timedOut now := by
  unfold TcpConnectionManager.timedOut
  refine List.mem_map.mpr ⟨p, List.mem_filter.mpr ⟨hp, by simpa using ht⟩, rfl⟩

theorem udp_mem_timedOut {m : UdpSessionManager} {now : Nat}
    {p : Address × UdpSession} (hp : p ∈ m.sessions)
    (ht : u64Sub now p.2.last_active_time > m.timeout_ms) :
    (p.1, p.2.last_active_time) ∈ m.timedOut now := by
  unfold UdpSessionManager.timedOut
  refine List.mem_map.mpr ⟨p, List.mem_filter.mpr ⟨hp, by simpa using ht⟩, rfl⟩

/-- C5: whenever `clear_inactive` actually sweeps (eviction enabled and
at least 1 s since the prior sweep; `ratio > 0` keeps the Rust division
defined), in both tables: after the sweep either no remaining record is
older than the timeout, or the number of removed records equals the
bound `k = size / ratio + floor` clamped to `size`; the removed entries
are timed-out records, and their last-active timestamps are no larger
than those of every timed-out record left behind. -/
theorem clear_inactive_sweep_spec
    (mt : TcpConnectionManager) (mu : UdpSessionManager)
    (stats : TrafficStats) (now : Nat)
    (hdt : mt.disable_conn_clear = false) (hdu : mu.disable_conn_clear = false)
    (het : 1000 ≤ u64Sub now mt.last_clear_time)
    (heu : 1000 ≤ u64Sub now mu.last_clear_time)
    (_hrt : 0 < mt.conn_clear_ratio_u32) (_hru : 0 < mu.conn_clear_ratio_u32) :
    ((∀ p ∈ (mt.clear_inactive now).1.connections,
        u64Sub now p.2.last_active_time ≤ mt.timeout_ms) ∨
      (mt.toRemove now).length = mt.sweepBound) ∧
    (∀ x ∈ (sortByKey (fun t => t.2.1) (mt.timedOut now)).take mt.sweepBound,
        x ∈ mt.timedOut now) ∧
    (∀ x ∈ (sortByKey (fun t => t.2.1) (mt.timedOut now)).take mt.sweepBound,
      ∀ y ∈ (sortByKey (fun t => t.2.1) (mt.timedOut now)).drop mt.sweepBound,
        x.2.1 ≤ y.2.1) ∧
    ((∀ p ∈ (mu.clear_inactive stats now).1.sessions,
        u64Sub now p.2.last_active_time ≤ mu.timeout_ms) ∨
      (mu.toRemove now).length = mu.sweepBound) ∧
    (∀ x ∈ (sortByKey (fun t => t.2) (mu.timedOut now)).take mu.sweepBound,
        x ∈ mu.timedOut now) ∧
    (∀ x ∈ (sortByKey (fun t => t.2) (mu.timedOut now)).take mu.sweepBound,
      ∀ y ∈ (sortByKey (fun t => t.2) (mu.timedOut now)).drop mu.sweepBound,
        x.2 ≤ y.2) := by
  have hstept : mt.clear_inactive now =
      tcpSweepRemove { mt with last_clear_time := now } (mt.toRemove now) := by
    unfold TcpConnectionManager.clear_inactive
    rw [if_neg (by omega)]
    rw [if_neg (by simpa using hdt)]
    rfl
  have hstepu : mu.clear_inactive stats now =
      (udpSweepRemove { mu with last_clear_time := now } (mu.toRemove now),
        stats, []) := by
    unfold UdpSessionManager.clear_inactive
    rw [if_neg (by omega)]
    rw [if_neg (by simpa using hdu)]
    rfl
  refine ⟨?_, ?_, ?_, ?_, ?_, ?_⟩
  · by_cases hle : (mt.timedOut now).length ≤ mt.sweepBound
    · left
      intro p hp
      rw [hstept] at hp
      have hmem := (tcpSweepRemove_connections (mt.toRemove now) _ p).mp hp
      by_contra hgt
      push_neg at hgt
      have htrip := tcp_mem_timedOut (p := p) hmem.1 hgt
      have hsortedmem : (p.1, p.2.last_active_time, p.2.addr_s) ∈
          sortByKey (fun t => t.2.1) (mt.timedOut now) :=
        ((sortByKey_perm (fun t => t.2.1) (mt.timedOut now)).mem_iff).mpr htrip
      have htake : (sortByKey (fun t => t.2.1) (mt.timedOut now)).take
          mt.sweepBound = sortByKey (fun t => t.2.1) (mt.timedOut now) := by
        apply List.take_of_length_le
        rw [(sortByKey_perm (fun t => t.2.1) (mt.timedOut now)).length_eq]
        exact hle
      have hin : p.1 ∈ (mt.toRemove now).map Prod.fst := by
        unfold TcpConnectionManager.toRemove
        rw [htake]
        simp only [List.map_map, List.mem_map]
        exact ⟨(p.1, p.2.last_active_time, p.2.addr_s), hsortedmem, rfl⟩
      exact hmem.2 hin
    · right
      unfold TcpConnectionManager.toRemove
      rw [List.length_map, List.length_take,
        (sortByKey_perm (fun t => t.2.1) (mt.timedOut now)).length_eq]
      omega
  · intro x hx
    exact ((sortByKey_perm (fun t => t.2.1) (mt.timedOut now)).mem_iff).mp
      (List.mem_of_mem_take hx)
  · exact sorted_take_drop_le (fun t => t.2.1) (mt.timedOut now) mt.sweepBound
  · by_cases hle : (mu.timedOut now).length ≤ mu.sweepBound
    · left
      intro p hp
      rw [hstepu] at hp
      have hmem := (udpSweepRemove_sessions (mu.toRemove now) _ p).mp hp
      by_contra hgt
      push_neg at hgt
      have htrip := udp_mem_timedOut (p := p) hmem.1 hgt
      have hsortedmem : (p.1, p.2.last_active_time) ∈
          sortByKey (fun t => t.2) (mu.timedOut now) :=
        ((sortByKey_perm (fun t => t.2) (mu.timedOut now)).mem_iff).mpr htrip
      have htake : (sortByKey (fun t => t.2) (mu.timedOut now)).take
          mu.sweepBound = sortByKey (fun t => t.2) (mu.timedOut now) := by
        apply List.take_of_length_le
        rw [(sortByKey_perm (fun t => t.2) (mu.timedOut now)).length_eq]
        exact hle
      have hin : p.1 ∈ mu.toRemove now := by
        unfold UdpSessionManager.toRemove
        rw [htake]
        simp only [List.mem_map]
        exact ⟨(p.1, p.2.last_active_time), hsortedmem, rfl⟩
      exact hmem.2 hin
    · right
      unfold UdpSessionManager.toRemove
      rw [List.length_map, List.length_take,
        (sortByKey_perm (fun t => t.2) (mu.timedOut now)).length_eq]
      omega
  · intro x hx
    exact ((sortByKey_perm (fun t => t.2) (mu.timedOut now)).mem_iff).mp
      (List.mem_of_mem_take hx)
  · exact sorted_take_drop_le (fun t => t.2) (mu.timedOut now) mu.sweepBound

/-- Witness for `clear_inactive_sweep_spec` on one-entry tables that
both timed out. -/
theorem clear_inactive_sweep_spec_witness :
    exTcpMgr.disable_conn_clear = false ∧
    exUdpMgr.disable_conn_clear = false ∧
    1000 ≤ u64Sub 400001 exTcpMgr.last_clear_time ∧
    1000 ≤ u64Sub 400001 exUdpMgr.last_clear_time ∧
    0 < exTcpMgr.conn_clear_ratio_u32 ∧
    0 < exUdpMgr.conn_clear_ratio_u32 ∧
    (((∀ p ∈ (exTcpMgr.clear_inactive 400001).1.connections,
        u64Sub 400001 p.2.last_active_time ≤ exTcpMgr.timeout_ms) ∨
      (exTcpMgr.toRemove 400001).length = exTcpMgr.sweepBound) ∧
    (∀ x ∈ (sortByKey (fun t => t.2.1) (exTcpMgr.timedOut 400001)).take
        exTcpMgr.sweepBound, x ∈ exTcpMgr.timedOut 400001) ∧
    (∀ x ∈ (sortByKey (fun t => t.2.1) (exTcpMgr.timedOut 400001)).take
        exTcpMgr.sweepBound,
      ∀ y ∈ (sortByKey (fun t => t.2.1) (exTcpMgr.timedOut 400001)).drop
        exTcpMgr.sweepBound, x.2.1 ≤ y.2.1) ∧
    ((∀ p ∈ (exUdpMgr.clear_inactive exUdpStats 400001).1.sessions,
        u64Sub 400001 p.2.last_active_time ≤ exUdpMgr.timeout_ms) ∨
      (exUdpMgr.toRemove 400001).length = exUdpMgr.sweepBound) ∧
    (∀ x ∈ (sortByKey (fun t => t.2) (exUdpMgr.timedOut 400001)).take
        exUdpMgr.sweepBound, x ∈ exUdpMgr.timedOut 400001) ∧
    (∀ x ∈ (sortByKey (fun t => t.2) (exUdpMgr.timedOut 400001)).take
        exUdpMgr.sweepBound,
      ∀ y ∈ (sortByKey (fun t => t.2) (exUdpMgr.timedOut 400001)).drop
        exUdpMgr.sweepBound, x.2 ≤ y.2)) :=
  ⟨by decide, by decide, by decide, by decide, by decide, by decide,
   clear_inactive_sweep_spec exTcpMgr exUdpMgr exUdpStats 400001 (by decide)
     (by decide) (by decide) (by decide) (by decide) (by decide)⟩

/-! ## C8: `peek_back` returns a minimal entry (fresh-keyed runs) -/

theorem containsA_iff_mem {K V : Type} [DecidableEq K] {l : List (K × V)}
    {k : K} : containsA l k = true ↔ k ∈ keysA l := by
  induction l with
  | nil => simp [containsA, lookupA, keysA]
  | cons p rest ih =>
    obtain ⟨k', v'⟩ := p
    by_cases hk : k' = k
    · subst hk; simp [containsA, lookupA, keysA]
    · simp only [containsA, lookupA, if_neg hk, keysA, List.map_cons,
        List.mem_cons]
      rw [← keysA, ← containsA, ih]
      constructor
      · exact Or.inr
      · rintro (h | h)
        · exact absurd h.symm hk
        · exact h

theorem lookupA_isSome_iff_mem {K V : Type} [DecidableEq K] {l : List (K × V)}
    {k : K} : (lookupA l k).isSome = true ↔ k ∈ keysA l :=
  containsA_iff_mem

theorem containsA_false_iff {K V : Type} [DecidableEq K] {l : List (K × V)}
    {k : K} : containsA l k = false ↔ k ∉ keysA l := by
  rw [← containsA_iff_mem]
  simp

theorem lookupA_none_of_not_mem {K V : Type} [DecidableEq K] {l : List (K × V)}
    {k : K} (h : k ∉ keysA l) : lookupA l k = none := by
  cases hl : lookupA l k with
  | none => rfl
  | some v =>
    exact absurd (List.mem_map.mpr ⟨(k, v), lookupA_mem hl, rfl⟩) h

theorem lookupA_insertA_self {K V : Type} [DecidableEq K] (l : List (K × V))
    (k : K) (v : V) : lookupA (insertA l k v) k = some v := by
  induction l with
  | nil => simp [insertA, lookupA]
  | cons p rest ih =>
    obtain ⟨k', v'⟩ := p
    by_cases hk : k' = k
    · subst hk; simp [insertA, lookupA]
    · simp [insertA, lookupA, hk, ih]

theorem lookupA_insertA_ne {K V : Type} [DecidableEq K] (l : List (K × V))
    {k k' : K} (v : V) (h : k' ≠ k) :
    lookupA (insertA l k v) k' = lookupA l k' := by
  have hne : ¬ k = k' := fun hh => h hh.symm
  induction l with
  | nil =>
    simp only [insertA, lookupA]
    rw [if_neg hne]
  | cons p rest ih =>
    obtain ⟨k'', v''⟩ := p
    by_cases hk : k'' = k
    · subst hk
      simp only [insertA, if_pos rfl, lookupA]
      rw [if_neg hne, if_neg hne]
    · simp only [insertA, if_neg hk, lookupA]
      by_cases hk' : k'' = k'
      · rw [if_pos hk', if_pos hk']
      · rw [if_neg hk', if_neg hk']
        exact ih

theorem keysA_insertA_of_mem {K V : Type} [DecidableEq K] {l : List (K × V)}
    {k : K} (v : V) (h : k ∈ keysA l) : keysA (insertA l k v) = keysA l := by
  induction l with
  | nil => simp [keysA] at h
  | cons p rest ih =>
    obtain ⟨k', v'⟩ := p
    by_cases hk : k' = k
    · subst hk; simp [insertA, keysA]
    · simp only [keysA, List.map_cons, List.mem_cons] at h
      rcases h with h | h
      · exact absurd h.symm hk
      · simp only [insertA, if_neg hk, keysA, List.map_cons]
        exact congrArg (List.cons k') (ih h)

theorem insertA_of_not_mem {K V : Type} [DecidableEq K] {l : List (K × V)}
    {k : K} (v : V) (h : k ∉ keysA l) : insertA l k v = l ++ [(k, v)] := by
  induction l with
  | nil => simp [insertA]
  | cons p rest ih =>
    obtain ⟨k', v'⟩ := p
    simp only [keysA, List.map_cons, List.mem_cons, not_or] at h
    have hne : ¬ k' = k := fun hh => h.1 hh.symm
    simp only [insertA, if_neg hne, List.cons_append]
    exact congrArg _ (ih (by simpa [keysA] using h.2))

theorem keysA_append {K V : Type} (l₁ l₂ : List (K × V)) :
    keysA (l₁ ++ l₂) = keysA l₁ ++ keysA l₂ := by
  simp [keysA]

theorem lookupA_append_left {K V : Type} [DecidableEq K] {l₁ : List (K × V)}
    (l₂ : List (K × V)) {k : K} {v : V} (h : lookupA l₁ k = some v) :
    lookupA (l₁ ++ l₂) k = some v := by
  induction l₁ with
  | nil => simp [lookupA] at h
  | cons p rest ih =>
    obtain ⟨k', v'⟩ := p
    by_cases hk : k' = k
    · subst hk
      simpa [lookupA] using h
    · simp only [lookupA, if_neg hk] at h
      simpa [lookupA, hk] using ih h

theorem lookupA_append_right {K V : Type} [DecidableEq K] {l₁ : List (K × V)}
    (l₂ : List (K × V)) {k : K} (h : k ∉ keysA l₁) :
    lookupA (l₁ ++ l₂) k = lookupA l₂ k := by
  induction l₁ with
  | nil => simp
  | cons p rest ih =>
    obtain ⟨k', v'⟩ := p
    simp only [keysA, List.map_cons, List.mem_cons, not_or] at h
    have hne : ¬ k' = k := fun hh => h.1 hh.symm
    simp only [List.cons_append, lookupA, if_neg hne]
    exact ih (by simpa [keysA] using h.2)

theorem map_fst_filter_fst {K V : Type} (q : K → Bool) (l : List (K × V)) :
    (l.filter (fun p => q p.1)).map Prod.fst = (l.map Prod.fst).filter q := by
  induction l with
  | nil => rfl
  | cons p rest ih =>
    obtain ⟨k', v'⟩ := p
    by_cases hq : q k'
    · simp [List.filter_cons, hq, ih]
    · simp [List.filter_cons, hq, ih]

theorem map_snd_filter_snd {K : Type} (q : K → Bool) (l : List (Nat × K)) :
    (l.filter (fun p => q p.2)).map Prod.snd = (l.map Prod.snd).filter q := by
  induction l with
  | nil => rfl
  | cons p rest ih =>
    obtain ⟨t', k'⟩ := p
    by_cases hq : q k'
    · simp [List.filter_cons, hq, ih]
    · simp [List.filter_cons, hq, ih]

theorem keysA_removeA {K V : Type} [DecidableEq K] (l : List (K × V)) (k : K) :
    keysA (removeA l k) = (keysA l).filter (fun x => decide (x ≠ k)) :=
  map_fst_filter_fst (fun x => decide (x ≠ k)) l

theorem lookupA_removeA_ne {K V : Type} [DecidableEq K] (l : List (K × V))
    {k k' : K} (h : k' ≠ k) : lookupA (removeA l k) k' = lookupA l k' := by
  induction l with
  | nil => simp [removeA]
  | cons p rest ih =>
    obtain ⟨k'', v''⟩ := p
    by_cases hk : k'' = k
    · subst hk
      have hstep : removeA ((k'', v'') :: rest) k'' = removeA rest k'' := by
        simp [removeA, List.filter_cons]
      rw [hstep, ih]
      have hne : ¬ k'' = k' := fun hh => h hh.symm
      simp [lookupA, hne]
    · have hstep : removeA ((k'', v'') :: rest) k = (k'', v'') :: removeA rest k := by
        simp [removeA, List.filter_cons, hk]
      rw [hstep]
      by_cases hk' : k'' = k'
      · simp [lookupA, hk']
      · simp [lookupA, hk', ih]

theorem updateHeapFirst_map_snd {K : Type} [DecidableEq K]
    (h : List (Nat × K)) (k : K) (t : Nat) :
    (updateHeapFirst h k t).map Prod.snd = h.map Prod.snd := by
  induction h with
  | nil => simp [updateHeapFirst]
  | cons p rest ih =>
    obtain ⟨t', k'⟩ := p
    by_cases hk : k' = k
    · subst hk; simp [updateHeapFirst]
    · simp [updateHeapFirst, hk, ih]

theorem mem_updateHeapFirst {K : Type} [DecidableEq K]
    {h : List (Nat × K)} {k : K} {t : Nat} {p : Nat × K}
    (hnodup : (h.map Prod.snd).Nodup) (hp : p ∈ updateHeapFirst h k t) :
    p = (t, k) ∨ (p ∈ h ∧ p.2 ≠ k) := by
  induction h with
  | nil => simp [updateHeapFirst] at hp
  | cons q rest ih =>
    obtain ⟨t', k'⟩ := q
    simp only [List.map_cons, List.nodup_cons] at hnodup
    by_cases hk : k' = k
    · subst hk
      have hun : updateHeapFirst ((t', k') :: rest) k' t = (t, k') :: rest := by
        simp [updateHeapFirst]
      rw [hun] at hp
      rcases List.mem_cons.mp hp with hp | hp
      · exact Or.inl hp
      · refine Or.inr ⟨List.mem_cons_of_mem _ hp, fun hcontra => ?_⟩
        exact hnodup.1 (by
          rw [← hcontra]
          exact List.mem_map.mpr ⟨p, hp, rfl⟩)
    · have hun : updateHeapFirst ((t', k') :: rest) k t =
          (t', k') :: updateHeapFirst rest k t := by
        simp [updateHeapFirst, hk]
      rw [hun] at hp
      rcases List.mem_cons.mp hp with hp | hp
      · exact Or.inr ⟨by simp [hp], by simp [hp, hk]⟩
      · rcases ih hnodup.2 hp with h' | h'
        · exact Or.inl h'
        · exact Or.inr ⟨List.mem_cons_of_mem _ h'.1, h'.2⟩

theorem map_snd_removeHeap {K : Type} [DecidableEq K] (h : List (Nat × K))
    (k : K) : (h.filter (fun p => decide (p.2 ≠ k))).map Prod.snd =
      (h.map Prod.snd).filter (fun x => decide (x ≠ k)) :=
  map_snd_filter_snd (fun x => decide (x ≠ k)) h

theorem LruInv_new {K T : Type} [DecidableEq K] :
    LruInv (LruCollector.new : LruCollector K T) := by
  refine ⟨List.sorted_nil, List.Perm.refl _, List.Perm.refl _, List.nodup_nil,
    ?_, ?_⟩ <;> intro p hp <;> simp [LruCollector.new, keysA] at hp

theorem LruInv_new_key {K T : Type} [DecidableEq K] {s : LruCollector K T}
    {k : K} {v : T} {t : Nat} (hInv : LruInv s)
    (hfresh : containsA s.values k = false) : LruInv (s.new_key k v t) := by
  obtain ⟨hsorted, hheapat, hvalat, hnodup, hlook, htl⟩ := hInv
  have hkv : k ∉ keysA s.values := containsA_false_iff.mp hfresh
  have hkat : k ∉ keysA s.access_times := fun hmem => hkv (hvalat.mem_iff.mpr hmem)
  have hvals' : insertA s.values k v = s.values ++ [(k, v)] :=
    insertA_of_not_mem v hkv
  have hat' : insertA s.access_times k t = s.access_times ++ [(k, t)] :=
    insertA_of_not_mem t hkat
  unfold LruCollector.new_key LruInv
  dsimp only
  rw [hvals', hat']
  refine ⟨sortByKey_sorted _ _, ?_, ?_, ?_, ?_, ?_⟩
  · have h1 : ((sortByKey Prod.fst (s.min_heap ++ [(t, k)])).map Prod.snd).Perm
        (s.min_heap.map Prod.snd ++ [k]) := by
      have := (sortByKey_perm Prod.fst (s.min_heap ++ [(t, k)])).map Prod.snd
      simpa using this
    refine h1.trans ?_
    rw [keysA_append]
    simpa [keysA] using hheapat.append_right [k]
  · rw [keysA_append, keysA_append]
    simpa [keysA] using hvalat.append_right [k]
  · rw [keysA_append]
    simp only [List.nodup_append]
    refine ⟨hnodup, by simp [keysA], ?_⟩
    intro a ha hb
    simp [keysA] at hb
    subst hb
    exact hkat ha
  · intro p hp
    have hp' := (sortByKey_perm Prod.fst _).mem_iff.mp hp
    rcases List.mem_append.mp hp' with hmem | hmem
    · exact lookupA_append_left _ (hlook p hmem)
    · simp only [List.mem_singleton] at hmem
      subst hmem
      rw [lookupA_append_right _ hkat]
      simp [lookupA]
  · intro k' hk'
    rw [keysA_append] at hk'
    simp only [List.mem_append] at hk'
    rcases hk' with hk' | hk'
    · exact List.mem_append.mpr (Or.inl (htl k' hk'))
    · have hkk : k' = k := by simpa [keysA] using hk'
      subst hkk
      simp

theorem LruInv_update {K T : Type} [DecidableEq K] {s : LruCollector K T}
    {k : K} {t : Nat} (hInv : LruInv s) : LruInv ((s.update k t).1) := by
  unfold LruCollector.update
  by_cases hc : containsA s.access_times k = true
  · rw [if_pos hc]
    obtain ⟨hsorted, hheapat, hvalat, hnodup, hlook, htl⟩ := hInv
    have hkat : k ∈ keysA s.access_times := containsA_iff_mem.mp hc
    have hheapnodup : (s.min_heap.map Prod.snd).Nodup := hheapat.nodup_iff.mpr hnodup
    dsimp only
    refine ⟨sortByKey_sorted _ _, ?_, ?_, ?_, ?_, ?_⟩
    · have h1 : ((sortByKey Prod.fst (updateHeapFirst s.min_heap k t)).map
          Prod.snd).Perm (s.min_heap.map Prod.snd) := by
        have := (sortByKey_perm Prod.fst (updateHeapFirst s.min_heap k t)).map
          Prod.snd
        rwa [updateHeapFirst_map_snd] at this
      rw [keysA_insertA_of_mem t hkat]
      exact h1.trans hheapat
    · rw [keysA_insertA_of_mem t hkat]
      exact hvalat
    · rw [keysA_insertA_of_mem t hkat]
      exact hnodup
    · intro p hp
      have hp' := (sortByKey_perm Prod.fst _).mem_iff.mp hp
      rcases mem_updateHeapFirst hheapnodup hp' with hrfl | ⟨hmem, hne⟩
      · subst hrfl
        exact lookupA_insertA_self _ _ _
      · rw [lookupA_insertA_ne _ _ hne]
        exact hlook p hmem
    · intro k' hk'
      rw [keysA_insertA_of_mem t hkat] at hk'
      exact htl k' hk'
  · rw [if_neg hc]
    exact hInv

theorem LruInv_erase {K T : Type} [DecidableEq K] {s : LruCollector K T}
    {k : K} (hInv : LruInv s) : LruInv ((s.erase k).1) := by
  obtain ⟨hsorted, hheapat, hvalat, hnodup, hlook, htl⟩ := hInv
  unfold LruCollector.erase
  dsimp only
  refine ⟨hsorted.filter _, ?_, ?_, ?_, ?_, ?_⟩
  · rw [map_snd_removeHeap, keysA_removeA]
    exact hheapat.filter _
  · rw [keysA_removeA, keysA_removeA]
    exact hvalat.filter _
  · rw [keysA_removeA]
    exact hnodup.filter _
  · intro p hp
    have hp' := List.mem_filter.mp hp
    have hne : p.2 ≠ k := by simpa using hp'.2
    rw [lookupA_removeA_ne _ hne]
    exact hlook p hp'.1
  · intro k' hk'
    rw [keysA_removeA] at hk'
    have hk'' := List.mem_filter.mp hk'
    refine List.mem_filter.mpr ⟨htl k' hk''.1, hk''.2⟩

theorem LruInv_applyOp {K T : Type} [DecidableEq K] {s : LruCollector K T}
    {op : LruOp K T} (hInv : LruInv s)
    (hfresh : match op with
      | .new_key k _ _ => containsA s.values k = false
      | _ => True) : LruInv (s.applyOp op) := by
  cases op with
  | new_key k v t => exact LruInv_new_key hInv hfresh
  | update k t => exact LruInv_update hInv
  | erase k => exact LruInv_erase hInv

theorem LruInv_foldl {K T : Type} [DecidableEq K] (ops : List (LruOp K T)) :
    ∀ (s : LruCollector K T), LruInv s → freshOps s ops = true →
      LruInv (ops.foldl LruCollector.applyOp s) := by
  induction ops with
  | nil => intro s hInv _; simpa using hInv
  | cons op rest ih =>
    intro s hInv hf
    simp only [freshOps, Bool.and_eq_true] at hf
    refine ih _ (LruInv_applyOp hInv ?_) hf.2
    cases op with
    | new_key k v t => simpa using hf.1
    | update k t => trivial
    | erase k => trivial

theorem LruInv_run {K T : Type} [DecidableEq K] (ops : List (LruOp K T))
    (hf : freshOps LruCollector.new ops = true) :
    LruInv (LruCollector.run ops) :=
  LruInv_foldl ops LruCollector.new LruInv_new hf

theorem peekScan_found {K T : Type} [DecidableEq K] (ats : List (K × Nat))
    (vals : List (K × T)) (minT : Nat) :
    ∀ (tl : List K),
      (∃ k ∈ tl, lookupA ats k = some minT ∧ (lookupA vals k).isSome = true) →
      ∃ k v, peekScan ats vals minT tl = some (k, v) ∧
        lookupA ats k = some minT ∧ lookupA vals k = some v := by
  intro tl
  induction tl with
  | nil =>
    rintro ⟨k, hk, _⟩
    simp at hk
  | cons k1 rest ih =>
    rintro ⟨k, hk, hat, hval⟩
    by_cases h1 : lookupA ats k1 = some minT
    · cases hv1 : lookupA vals k1 with
      | some v => exact ⟨k1, v, by simp [peekScan, h1, hv1], h1, hv1⟩
      | none =>
        have hk' : k ∈ rest := by
          rcases List.mem_cons.mp hk with hrfl | h
          · subst hrfl
            rw [hv1] at hval
            simp at hval
          · exact h
        obtain ⟨k', v', hscan, h1', h2'⟩ := ih ⟨k, hk', hat, hval⟩
        exact ⟨k', v', by simp [peekScan, h1, hv1, hscan], h1', h2'⟩
    · have hk' : k ∈ rest := by
        rcases List.mem_cons.mp hk with hrfl | h
        · subst hrfl
          exact absurd hat h1
        · exact h
      obtain ⟨k', v', hscan, h1', h2'⟩ := ih ⟨k, hk', hat, hval⟩
      exact ⟨k', v', by simp [peekScan, h1, hscan], h1', h2'⟩

theorem peek_back_min_of_inv {K T : Type} [DecidableEq K]
    (s : LruCollector K T) (hInv : LruInv s) (hne : s.values ≠ []) :
    ∃ k v t, s.peek_back = some (k, v) ∧ lookupA s.values k = some v ∧
      s.ts_of k = some t ∧
      ∀ k' t', lookupA s.access_times k' = some t' → t ≤ t' := by
  obtain ⟨hsorted, hheapat, hvalat, hnodup, hlook, htl⟩ := hInv
  have hvkeys : keysA s.values ≠ [] := by
    intro h
    apply hne
    cases hv : s.values with
    | nil => rfl
    | cons a b => rw [hv] at h; simp [keysA] at h
  have hatkeys_ne : keysA s.access_times ≠ [] := by
    intro h
    apply hvkeys
    rw [h] at hvalat
    exact hvalat.eq_nil
  have hheap_ne : s.min_heap ≠ [] := by
    intro h
    apply hatkeys_ne
    rw [h] at hheapat
    simpa using hheapat.symm.eq_nil
  obtain ⟨p0, hs, hheapeq⟩ : ∃ p0 hs, s.min_heap = p0 :: hs := by
    cases hh : s.min_heap with
    | nil => exact absurd hh hheap_ne
    | cons a b => exact ⟨a, b, rfl⟩
  obtain ⟨t0, k0⟩ := p0
  have hlook0 : lookupA s.access_times k0 = some t0 :=
    hlook (t0, k0) (by rw [hheapeq]; exact List.mem_cons_self _ _)
  have hk0at : k0 ∈ keysA s.access_times :=
    List.mem_map.mpr ⟨(k0, t0), lookupA_mem hlook0, rfl⟩
  have hk0tl : k0 ∈ s.time_list := htl k0 hk0at
  have hk0vals : k0 ∈ keysA s.values := hvalat.mem_iff.mpr hk0at
  have hk0some : (lookupA s.values k0).isSome = true :=
    lookupA_isSome_iff_mem.mpr hk0vals
  obtain ⟨kr, vr, hscan, hatr, hvalr⟩ := peekScan_found s.access_times s.values
    t0 s.time_list ⟨k0, hk0tl, hlook0, hk0some⟩
  refine ⟨kr, vr, t0, ?_, hvalr, hatr, ?_⟩
  · unfold LruCollector.peek_back
    rw [hheapeq]
    simpa using hscan
  · intro k' t' hk't'
    have hk'at : k' ∈ keysA s.access_times :=
      List.mem_map.mpr ⟨(k', t'), lookupA_mem hk't', rfl⟩
    have hk'heap : k' ∈ s.min_heap.map Prod.snd := hheapat.mem_iff.mpr hk'at
    obtain ⟨p, hpmem, hpk⟩ := List.mem_map.mp hk'heap
    have hplook : lookupA s.access_times p.2 = some p.1 := hlook p hpmem
    rw [hpk, hk't'] at hplook
    have ht'eq : t' = p.1 := Option.some.inj hplook
    rw [hheapeq] at hpmem
    rcases List.mem_cons.mp hpmem with hrfl | hmem
    · subst hrfl
      omega
    · have hle := List.rel_of_sorted_cons (hheapeq ▸ hsorted) p hmem
      have : t0 ≤ p.1 := hle
      omega

/-- C8 counterexample: `new_key` on an already-present key (`new_key 1 _ 10`
then `new_key 1 _ 20`) leaves a stale `(10, 1)` heap entry whose time no
longer matches `access_times[1] = 20`; the `peek_back` scan then finds
no key with the stale minimum time and returns `None` although the
collector is non-empty. -/
theorem lru_peek_back_counterexample :
    (LruCollector.run (K := Nat) (T := Nat)
      [LruOp.new_key 1 0 10, LruOp.new_key 1 0 20]).values ≠ [] ∧
    (LruCollector.run (K := Nat) (T := Nat)
      [LruOp.new_key 1 0 10, LruOp.new_key 1 0 20]).peek_back = none := by
  decide

/-- C8 (amended): for every state reachable by a sequence of `new_key`,
`update` and `erase` operations in which each `new_key` targets a key
not currently stored (as the connection/session managers guarantee), a
non-empty collector's `peek_back` returns an entry whose stored access
time is minimal among all stored entries. -/
theorem lru_peek_back_min_fresh {K T : Type} [DecidableEq K]
    (ops : List (LruOp K T)) (hf : freshOps LruCollector.new ops = true)
    (hne : (LruCollector.run ops).values ≠ []) :
    ∃ k v t, (LruCollector.run ops).peek_back = some (k, v) ∧
      lookupA (LruCollector.run ops).values k = some v ∧
      (LruCollector.run ops).ts_of k = some t ∧
      ∀ k' t', lookupA (LruCollector.run ops).access_times k' = some t' →
        t ≤ t' :=
  peek_back_min_of_inv _ (LruInv_run ops hf) hne

/-- Witness for `lru_peek_back_min_fresh` on a three-operation run in
which `update` moves key 2 to the front of the eviction order. -/
theorem lru_peek_back_min_fresh_witness :
    freshOps (LruCollector.new : LruCollector Nat Nat)
      [LruOp.new_key 1 5 10, LruOp.new_key 2 6 20, LruOp.update 2 3] = true ∧
    (LruCollector.run (K := Nat) (T := Nat)
      [LruOp.new_key 1 5 10, LruOp.new_key 2 6 20, LruOp.update 2 3]).values
      ≠ [] ∧
    (∃ k v t,
      (LruCollector.run (K := Nat) (T := Nat)
        [LruOp.new_key 1 5 10, LruOp.new_key 2 6 20,
          LruOp.update 2 3]).peek_back = some (k, v) ∧
      lookupA (LruCollector.run (K := Nat) (T := Nat)
        [LruOp.new_key 1 5 10, LruOp.new_key 2 6 20,
          LruOp.update 2 3]).values k = some v ∧
      (LruCollector.run (K := Nat) (T := Nat)
        [LruOp.new_key 1 5 10, LruOp.new_key 2 6 20,
          LruOp.update 2 3]).ts_of k = some t ∧
      ∀ k' t', lookupA (LruCollector.run (K := Nat) (T := Nat)
        [LruOp.new_key 1 5 10, LruOp.new_key 2 6 20,
          LruOp.update 2 3]).access_times k' = some t' → t ≤ t') :=
  ⟨by decide, by decide,
   lru_peek_back_min_fresh
     [LruOp.new_key 1 5 10, LruOp.new_key 2 6 20, LruOp.update 2 3]
     (by decide) (by decide)⟩

/-! ## C7: `parse(format(addr))` — character and digit-loop lemmas -/

theorem toDigitQ_hexDigitChar : ∀ d, d < 16 → toDigitQ 16 (hexDigitChar d) = some d := by
  decide

theorem toDigitQ_decDigitChar : ∀ d, d < 10 → toDigitQ 10 (decDigitChar d) = some d := by
  decide

theorem hexDigitChar_ne : ∀ d, d < 16 → hexDigitChar d ≠ ':' ∧ hexDigitChar d ≠ '.' ∧
    hexDigitChar d ≠ ']' ∧ hexDigitChar d ≠ '[' := by decide

theorem decDigitChar_ne : ∀ d, d < 10 → decDigitChar d ≠ '+' ∧ decDigitChar d ≠ ':' ∧
    decDigitChar d ≠ '.' ∧ decDigitChar d ≠ '[' ∧ decDigitChar d ≠ ']' := by decide

theorem decDigitChar_ne_zero : ∀ d, d < 10 → 0 < d → decDigitChar d ≠ '0' := by decide

theorem valFold_nil (r acc : Nat) : valFold r [] acc = acc := rfl

theorem valFold_cons (r : Nat) (c : Char) (ds : List Char) (acc : Nat) :
    valFold r (c :: ds) acc = valFold r ds (acc * r + (toDigitQ r c).getD 0) := rfl

theorem valFold_append (r : Nat) (ds es : List Char) (acc : Nat) :
    valFold r (ds ++ es) acc = valFold r es (valFold r ds acc) :=
  List.foldl_append _ _ _ _

theorem le_valFold (r : Nat) (hr : 1 ≤ r) (ds : List Char) :
    ∀ acc, acc ≤ valFold r ds acc := by
  induction ds with
  | nil => intro acc; simp [valFold_nil]
  | cons c ds ih =>
    intro acc
    rw [valFold_cons]
    refine le_trans ?_ (ih _)
    have : acc ≤ acc * r := Nat.le_mul_of_pos_right acc hr
    omega

theorem valFold_take_le (r : Nat) (hr : 1 ≤ r) (ds : List Char) (i acc : Nat) :
    valFold r (ds.take i) acc ≤ valFold r ds acc := by
  conv_rhs => rw [← List.take_append_drop i ds]
  rw [valFold_append]
  exact le_valFold r hr _ _

theorem hexDigitsGo_zero : ∀ fuel acc, hexDigitsGo fuel 0 acc = acc := by
  intro fuel acc
  cases fuel <;> simp [hexDigitsGo]

theorem decDigitsGo_zero : ∀ fuel acc, decDigitsGo fuel 0 acc = acc := by
  intro fuel acc
  cases fuel <;> simp [decDigitsGo]

theorem hexDigitsGo_spec : ∀ (fuel n : Nat), n < 16 ^ fuel → ∀ acc,
    ∃ ds, hexDigitsGo fuel n acc = ds ++ acc ∧
      ds.length ≤ fuel ∧
      (n = 0 → ds = []) ∧
      (0 < n → ds ≠ []) ∧
      (∀ c ∈ ds, ∃ d, d < 16 ∧ c = hexDigitChar d) ∧
      (0 < n → ∃ d, 0 < d ∧ d < 16 ∧ ds.head? = some (hexDigitChar d)) ∧
      (∀ v0, valFold 16 ds v0 = v0 * 16 ^ ds.length + n) := by
  intro fuel
  induction fuel with
  | zero =>
    intro n hn acc
    have h0 : n = 0 := by simpa using hn
    subst h0
    exact ⟨[], by simp [hexDigitsGo_zero], by simp, fun _ => rfl,
      by omega, by simp, by omega, fun v0 => by simp [valFold_nil]⟩
  | succ fuel ih =>
    intro n hn acc
    by_cases h0 : n = 0
    · subst h0
      exact ⟨[], by simp [hexDigitsGo_zero], by simp, fun _ => rfl,
        by omega, by simp, by omega, fun v0 => by simp [valFold_nil]⟩
    · have hdiv : n / 16 < 16 ^ fuel := by
        have h16 : n < 16 ^ fuel * 16 := by
          rw [← pow_succ]; exact hn
        exact (Nat.div_lt_iff_lt_mul (by norm_num)).mpr h16
      obtain ⟨ds', hgo, hlen, hzero', hne', hchars, hhead, hval⟩ :=
        ih (n / 16) hdiv (hexDigitChar (n % 16) :: acc)
      have hmod : n % 16 < 16 := Nat.mod_lt n (by norm_num)
      refine ⟨ds' ++ [hexDigitChar (n % 16)], ?_, ?_, ?_, ?_, ?_, ?_, ?_⟩
      · show hexDigitsGo (fuel + 1) n acc = _
        simp only [hexDigitsGo, if_neg h0]
        rw [hgo, List.append_assoc]
        rfl
      · simp only [List.length_append, List.length_singleton]
        omega
      · intro h; exact absurd h h0
      · intro _; simp
      · intro c hc
        rcases List.mem_append.mp hc with hc | hc
        · exact hchars c hc
        · simp only [List.mem_singleton] at hc
          exact ⟨n % 16, hmod, hc⟩
      · intro _
        by_cases hq : n / 16 = 0
        · have hds' : ds' = [] := hzero' hq
          subst hds'
          have hn16 : n < 16 := by
            have := Nat.div_add_mod n 16
            omega
          refine ⟨n % 16, ?_, hmod, ?_⟩
          · have := Nat.mod_eq_of_lt hn16
            omega
          · simp
        · obtain ⟨d, hd0, hd16, hd⟩ := hhead (Nat.pos_of_ne_zero hq)
          refine ⟨d, hd0, hd16, ?_⟩
          rw [List.head?_append, hd]
          rfl
      · intro v0
        rw [valFold_append, hval v0, valFold_cons, valFold_nil]
        rw [toDigitQ_hexDigitChar (n % 16) hmod]
        simp only [Option.getD_some, List.length_append, List.length_singleton]
        have hdm : n / 16 * 16 + n % 16 = n := by omega
        calc (v0 * 16 ^ ds'.length + n / 16) * 16 + n % 16
            = v0 * (16 ^ ds'.length * 16) + (n / 16 * 16 + n % 16) := by ring
          _ = v0 * 16 ^ (ds'.length + 1) + n := by rw [hdm, pow_succ]

theorem decDigitsGo_spec : ∀ (fuel n : Nat), n < 10 ^ fuel → ∀ acc,
    ∃ ds, decDigitsGo fuel n acc = ds ++ acc ∧
      ds.length ≤ fuel ∧
      (n = 0 → ds = []) ∧
      (0 < n → ds ≠ []) ∧
      (∀ c ∈ ds, ∃ d, d < 10 ∧ c = decDigitChar d) ∧
      (0 < n → ∃ d, 0 < d ∧ d < 10 ∧ ds.head? = some (decDigitChar d)) ∧
      (∀ v0, valFold 10 ds v0 = v0 * 10 ^ ds.length + n) := by
  intro fuel
  induction fuel with
  | zero =>
    intro n hn acc
    have h0 : n = 0 := by simpa using hn
    subst h0
    exact ⟨[], by simp [decDigitsGo_zero], by simp, fun _ => rfl,
      by omega, by simp, by omega, fun v0 => by simp [valFold_nil]⟩
  | succ fuel ih =>
    intro n hn acc
    by_cases h0 : n = 0
    · subst h0
      exact ⟨[], by simp [decDigitsGo_zero], by simp, fun _ => rfl,
        by omega, by simp, by omega, fun v0 => by simp [valFold_nil]⟩
    · have hdiv : n / 10 < 10 ^ fuel := by
        have h10 : n < 10 ^ fuel * 10 := by
          rw [← pow_succ]; exact hn
        exact (Nat.div_lt_iff_lt_mul (by norm_num)).mpr h10
      obtain ⟨ds', hgo, hlen, hzero', hne', hchars, hhead, hval⟩ :=
        ih (n / 10) hdiv (decDigitChar (n % 10) :: acc)
      have hmod : n % 10 < 10 := Nat.mod_lt n (by norm_num)
      refine ⟨ds' ++ [decDigitChar (n % 10)], ?_, ?_, ?_, ?_, ?_, ?_, ?_⟩
      · show decDigitsGo (fuel + 1) n acc = _
        simp only [decDigitsGo, if_neg h0]
        rw [hgo, List.append_assoc]
        rfl
      · simp only [List.length_append, List.length_singleton]
        omega
      · intro h; exact absurd h h0
      · intro _; simp
      · intro c hc
        rcases List.mem_append.mp hc with hc | hc
        · exact hchars c hc
        · simp only [List.mem_singleton] at hc
          exact ⟨n % 10, hmod, hc⟩
      · intro _
        by_cases hq : n / 10 = 0
        · have hds' : ds' = [] := hzero' hq
          subst hds'
          have hn10 : n < 10 := by
            have := Nat.div_add_mod n 10
            omega
          refine ⟨n % 10, ?_, hmod, ?_⟩
          · have := Nat.mod_eq_of_lt hn10
            omega
          · simp
        · obtain ⟨d, hd0, hd10, hd⟩ := hhead (Nat.pos_of_ne_zero hq)
          refine ⟨d, hd0, hd10, ?_⟩
          rw [List.head?_append, hd]
          rfl
      · intro v0
        rw [valFold_append, hval v0, valFold_cons, valFold_nil]
        rw [toDigitQ_decDigitChar (n % 10) hmod]
        simp only [Option.getD_some, List.length_append, List.length_singleton]
        have hdm : n / 10 * 10 + n % 10 = n := by omega
        calc (v0 * 10 ^ ds'.length + n / 10) * 10 + n % 10
            = v0 * (10 ^ ds'.length * 10) + (n / 10 * 10 + n % 10) := by ring
          _ = v0 * 10 ^ (ds'.length + 1) + n := by rw [hdm, pow_succ]

theorem hexDigitsGo_fuel_irrel : ∀ (f1 f2 n : Nat), n < 16 ^ f1 → n < 16 ^ f2 →
    ∀ acc, hexDigitsGo f1 n acc = hexDigitsGo f2 n acc := by
  intro f1
  induction f1 with
  | zero =>
    intro f2 n h1 _ acc
    have h0 : n = 0 := by simpa using h1
    subst h0
    rw [hexDigitsGo_zero, hexDigitsGo_zero]
  | succ f1 ih =>
    intro f2 n h1 h2 acc
    by_cases h0 : n = 0
    · subst h0; rw [hexDigitsGo_zero, hexDigitsGo_zero]
    · cases f2 with
      | zero =>
        exfalso
        have : n = 0 := by simpa using h2
        exact h0 this
      | succ f2 =>
        simp only [hexDigitsGo, if_neg h0]
        have hd1 : n / 16 < 16 ^ f1 := by
          have : n < 16 ^ f1 * 16 := by rw [← pow_succ]; exact h1
          exact (Nat.div_lt_iff_lt_mul (by norm_num)).mpr this
        have hd2 : n / 16 < 16 ^ f2 := by
          have : n < 16 ^ f2 * 16 := by rw [← pow_succ]; exact h2
          exact (Nat.div_lt_iff_lt_mul (by norm_num)).mpr this
        exact ih f2 (n / 16) hd1 hd2 _

theorem decDigitsGo_fuel_irrel : ∀ (f1 f2 n : Nat), n < 10 ^ f1 → n < 10 ^ f2 →
    ∀ acc, decDigitsGo f1 n acc = decDigitsGo f2 n acc := by
  intro f1
  induction f1 with
  | zero =>
    intro f2 n h1 _ acc
    have h0 : n = 0 := by simpa using h1
    subst h0
    rw [decDigitsGo_zero, decDigitsGo_zero]
  | succ f1 ih =>
    intro f2 n h1 h2 acc
    by_cases h0 : n = 0
    · subst h0; rw [decDigitsGo_zero, decDigitsGo_zero]
    · cases f2 with
      | zero =>
        exfalso
        have : n = 0 := by simpa using h2
        exact h0 this
      | succ f2 =>
        simp only [decDigitsGo, if_neg h0]
        have hd1 : n / 10 < 10 ^ f1 := by
          have : n < 10 ^ f1 * 10 := by rw [← pow_succ]; exact h1
          exact (Nat.div_lt_iff_lt_mul (by norm_num)).mpr this
        have hd2 : n / 10 < 10 ^ f2 := by
          have : n < 10 ^ f2 * 10 := by rw [← pow_succ]; exact h2
          exact (Nat.div_lt_iff_lt_mul (by norm_num)).mpr this
        exact ih f2 (n / 10) hd1 hd2 _

theorem hexPrint_spec (n : Nat) (h : n < 65536) :
    (hexPrint n).length ≤ 4 ∧ hexPrint n ≠ [] ∧
    (∀ c ∈ hexPrint n, ∃ d, d < 16 ∧ c = hexDigitChar d) ∧
    valFold 16 (hexPrint n) 0 = n := by
  by_cases h0 : n = 0
  · subst h0
    refine ⟨by decide, by decide, ?_, by decide⟩
    intro c hc
    simp [hexPrint] at hc
    exact ⟨0, by norm_num, hc⟩
  · have hp : (16 : Nat) ^ 4 = 65536 := by norm_num
    have h4 : n < 16 ^ 4 := by omega
    have hself : n < 16 ^ n := Nat.lt_pow_self (by norm_num) n
    have hpr : hexPrint n = hexDigitsGo 4 n [] := by
      simp only [hexPrint, if_neg h0]
      exact hexDigitsGo_fuel_irrel n 4 n hself h4 []
    obtain ⟨ds, hgo, hlen, _, hne, hchars, _, hval⟩ := hexDigitsGo_spec 4 n h4 []
    rw [List.append_nil] at hgo
    rw [hpr, hgo]
    refine ⟨hlen, hne (Nat.pos_of_ne_zero h0), hchars, ?_⟩
    have := hval 0
    simpa using this

theorem decPrint_spec (k n : Nat) (hk : 0 < k) (h : n < 10 ^ k) :
    (decPrint n).length ≤ k ∧ decPrint n ≠ [] ∧
    (∀ c ∈ decPrint n, ∃ d, d < 10 ∧ c = decDigitChar d) ∧
    valFold 10 (decPrint n) 0 = n ∧
    (∀ c, (decPrint n).head? = some c → c = '0' → n = 0) := by
  by_cases h0 : n = 0
  · subst h0
    refine ⟨?_, by decide, ?_, by decide, ?_⟩
    · have : (decPrint 0).length = 1 := by decide
      omega
    · intro c hc
      simp [decPrint] at hc
      exact ⟨0, by norm_num, hc⟩
    · intro _ _ _; rfl
  · have hself : n < 10 ^ n := Nat.lt_pow_self (by norm_num) n
    have hpr : decPrint n = decDigitsGo k n [] := by
      simp only [decPrint, if_neg h0]
      exact decDigitsGo_fuel_irrel n k n hself h []
    obtain ⟨ds, hgo, hlen, _, hne, hchars, hhead, hval⟩ := decDigitsGo_spec k n h []
    rw [List.append_nil] at hgo
    rw [hpr, hgo]
    refine ⟨hlen, hne (Nat.pos_of_ne_zero h0), hchars, ?_, ?_⟩
    · have := hval 0
      simpa using this
    · intro c hc hc0
      obtain ⟨d, hd0, hd10, hd⟩ := hhead (Nat.pos_of_ne_zero h0)
      rw [hd] at hc
      have hcd : c = decDigitChar d := (Option.some.inj hc).symm
      exact absurd (hc0 ▸ hcd).symm (decDigitChar_ne_zero d hd10 hd0)

theorem readNumGo_digits (radix limitVal maxD : Nat) (hr : 1 ≤ radix) :
    ∀ (ds rest : List Char) (acc cnt : Nat),
      (∀ c ∈ ds, (toDigitQ radix c).isSome) →
      (∀ c, rest.head? = some c → toDigitQ radix c = none) →
      valFold radix ds acc ≤ limitVal →
      cnt + ds.length ≤ maxD →
      readNumGo radix limitVal maxD (ds ++ rest) acc cnt =
        some (valFold radix ds acc, cnt + ds.length, rest) := by
  intro ds
  induction ds with
  | nil =>
    intro rest acc cnt _ hrest _ _
    cases rest with
    | nil => simp [readNumGo, valFold_nil]
    | cons c r =>
      have hc : toDigitQ radix c = none := hrest c rfl
      simp [readNumGo, hc, valFold_nil]
  | cons c ds ih =>
    intro rest acc cnt hdig hrest hval hcnt
    have hcs : (toDigitQ radix c).isSome := hdig c (List.mem_cons_self c ds)
    obtain ⟨d, hd⟩ := Option.isSome_iff_exists.mp hcs
    have hstep : valFold radix (c :: ds) acc = valFold radix ds (acc * radix + d) := by
      rw [valFold_cons, hd]; rfl
    have hone : acc * radix + d ≤ limitVal := by
      have h1 : valFold radix ((c :: ds).take 1) acc ≤ valFold radix (c :: ds) acc :=
        valFold_take_le radix hr (c :: ds) 1 acc
      simp only [List.take_succ_cons, List.take_zero] at h1
      rw [valFold_cons, valFold_nil] at h1
      simp only [hd, Option.getD_some] at h1
      exact le_trans h1 hval
    have hlen : cnt + 1 + ds.length ≤ maxD := by
      simp only [List.length_cons] at hcnt
      omega
    show readNumGo radix limitVal maxD (c :: (ds ++ rest)) acc cnt = _
    simp only [readNumGo, hd]
    rw [if_neg (by omega), if_neg (by omega)]
    rw [ih rest (acc * radix + d) (cnt + 1)
      (fun x hx => hdig x (List.mem_cons_of_mem c hx)) hrest
      (hstep ▸ hval) hlen]
    rw [← hstep]
    simp only [List.length_cons]
    have : cnt + 1 + ds.length = cnt + (ds.length + 1) := by omega
    rw [this]

theorem readNumber_digits (radix limitVal maxD : Nat) (hr : 1 ≤ radix)
    (allowZeroPre : Bool) (ds rest : List Char)
    (hds : ds ≠ [])
    (hdig : ∀ c ∈ ds, (toDigitQ radix c).isSome)
    (hrest : ∀ c, rest.head? = some c → toDigitQ radix c = none)
    (hval : valFold radix ds 0 ≤ limitVal)
    (hlen : ds.length ≤ maxD)
    (hzero : allowZeroPre = true ∨ (∀ c, ds.head? = some c → c = '0' → ds.length = 1)) :
    readNumber radix limitVal maxD allowZeroPre (ds ++ rest) =
      some (valFold radix ds 0, rest) := by
  have hgo := readNumGo_digits radix limitVal maxD hr ds rest 0 0 hdig hrest hval
    (by omega)
  rw [Nat.zero_add] at hgo
  have hdlen : ds.length ≠ 0 := by
    intro h
    exact hds (List.eq_nil_of_length_eq_zero h)
  rw [readNumber]
  rw [hgo]
  simp only [if_neg hdlen]
  rcases hzero with hz | hz
  · subst hz
    simp
  · by_cases hhead : (ds ++ rest).head? = some '0'
    · have hdh : ds.head? = some '0' := by
        cases ds with
        | nil => exact absurd rfl hds
        | cons x xs =>
          rw [List.cons_append] at hhead
          exact hhead
      have h1 : ds.length = 1 := hz '0' hdh rfl
      simp [hhead, h1]
    · simp [hhead]
      intro _ hor
      rcases hor with hh | ⟨hnil, _⟩
      · have := hz '0' hh rfl
        omega
      · exact absurd hnil hds

theorem readNumber_head_nondigit (radix limitVal maxD : Nat) (allowZeroPre : Bool)
    (c : Char) (r : List Char) (hc : toDigitQ radix c = none) :
    readNumber radix limitVal maxD allowZeroPre (c :: r) = none := by
  rw [readNumber, readNumGo, hc]
  simp

theorem readNumber_nil (radix limitVal maxD : Nat) (allowZeroPre : Bool) :
    readNumber radix limitVal maxD allowZeroPre [] = none := by
  rw [readNumber, readNumGo]
  simp

theorem readNumGo_rest_mem (radix limitVal maxD : Nat) :
    ∀ (s : List Char) (acc cnt v k : Nat) (r : List Char),
      readNumGo radix limitVal maxD s acc cnt = some (v, k, r) →
      ∀ x ∈ r, x ∈ s := by
  intro s
  induction s with
  | nil =>
    intro acc cnt v k r h
    rw [readNumGo] at h
    have : r = [] := by
      have := (Option.some.inj h)
      exact (congrArg (fun t => t.2.2) this).symm
    subst this
    intro x hx
    exact absurd hx (List.not_mem_nil x)
  | cons c rest ih =>
    intro acc cnt v k r h
    simp only [readNumGo] at h
    cases hd : toDigitQ radix c with
    | none =>
      simp only [hd] at h
      have : r = c :: rest := by
        have := (Option.some.inj h)
        exact (congrArg (fun t => t.2.2) this).symm
      subst this
      intro x hx
      exact hx
    | some d =>
      simp only [hd] at h
      by_cases h1 : acc * radix + d > limitVal
      · rw [if_pos h1] at h; exact absurd h (by simp)
      · rw [if_neg h1] at h
        by_cases h2 : cnt + 1 > maxD
        · rw [if_pos h2] at h; exact absurd h (by simp)
        · rw [if_neg h2] at h
          intro x hx
          exact List.mem_cons_of_mem c (ih _ _ _ _ _ h x hx)

theorem readNumber_rest_mem (radix limitVal maxD : Nat) (allowZeroPre : Bool)
    (s : List Char) (v : Nat) (r : List Char)
    (h : readNumber radix limitVal maxD allowZeroPre s = some (v, r)) :
    ∀ x ∈ r, x ∈ s := by
  rw [readNumber] at h
  cases hgo : readNumGo radix limitVal maxD s 0 0 with
  | none => rw [hgo] at h; exact absurd h (by simp)
  | some t =>
    obtain ⟨v', k, r'⟩ := t
    simp only [hgo] at h
    by_cases h1 : k = 0
    · rw [if_pos h1] at h; exact absurd h (by simp)
    · rw [if_neg h1] at h
      by_cases h2 : (!allowZeroPre && decide (s.head? = some '0') && decide (k > 1)) = true
      · rw [if_pos h2] at h; exact absurd h (by simp)
      · rw [if_neg h2] at h
        have hr : r = r' := by
          have := Option.some.inj h
          exact (congrArg (fun t => t.2) this).symm
        subst hr
        exact readNumGo_rest_mem radix limitVal maxD s 0 0 v' k r hgo

theorem readIpv4_none_of_no_dot (s : List Char) (h : '.' ∉ s) : readIpv4 s = none := by
  rw [readIpv4]
  cases h1 : readNumber 10 255 3 false s with
  | none => simp [h1]
  | some pr =>
    obtain ⟨v, r1⟩ := pr
    have hmem := readNumber_rest_mem 10 255 3 false s v r1 h1
    cases r1 with
    | nil => simp [h1, readGivenChar]
    | cons x r =>
      have hx : x ≠ '.' := by
        intro hx
        exact h (hx ▸ hmem x (List.mem_cons_self x r))
      simp [h1, readGivenChar, hx]

theorem readNumber_octet (x : Nat) (hx : x < 256) (rest : List Char)
    (hrest : ∀ ch, rest.head? = some ch → toDigitQ 10 ch = none) :
    readNumber 10 255 3 false (decPrint x ++ rest) = some (x, rest) := by
  have hxp : x < 10 ^ 3 := by
    have : (10 : Nat) ^ 3 = 1000 := by norm_num
    omega
  obtain ⟨hlen, hne, hchars, hval, hhead0⟩ := decPrint_spec 3 x (by norm_num) hxp
  have hres := readNumber_digits 10 255 3 (by norm_num) false (decPrint x) rest hne
    (fun c hc => by
      obtain ⟨d, hd10, hcd⟩ := hchars c hc
      rw [hcd, toDigitQ_decDigitChar d hd10]
      rfl)
    hrest
    (by rw [hval]; omega)
    hlen
    (Or.inr (fun c hc hc0 => by
      have h0 : x = 0 := hhead0 c hc hc0
      subst h0
      decide))
  rw [hres, hval]

theorem readNumber_hexGroup (x : Nat) (hx : x < 65536) (rest : List Char)
    (hrest : ∀ ch, rest.head? = some ch → toDigitQ 16 ch = none) :
    readNumber 16 65535 4 true (hexPrint x ++ rest) = some (x, rest) := by
  obtain ⟨hlen, hne, hchars, hval⟩ := hexPrint_spec x hx
  have hres := readNumber_digits 16 65535 4 (by norm_num) true (hexPrint x) rest hne
    (fun c hc => by
      obtain ⟨d, hd16, hcd⟩ := hchars c hc
      rw [hcd, toDigitQ_hexDigitChar d hd16]
      rfl)
    hrest
    (by rw [hval]; omega)
    hlen
    (Or.inl rfl)
  rw [hres, hval]

theorem parseU16Digits_digits : ∀ (ds : List Char) (acc : Nat),
    (∀ c ∈ ds, (toDigitQ 10 c).isSome) →
    valFold 10 ds acc ≤ 65535 →
    parseU16Digits ds acc = some (valFold 10 ds acc) := by
  intro ds
  induction ds with
  | nil => intro acc _ _; rw [valFold_nil]; rfl
  | cons c ds ih =>
    intro acc hdig hval
    obtain ⟨d, hd⟩ := Option.isSome_iff_exists.mp (hdig c (List.mem_cons_self c ds))
    have hstep : valFold 10 (c :: ds) acc = valFold 10 ds (acc * 10 + d) := by
      rw [valFold_cons, hd]; rfl
    have hone : acc * 10 + d ≤ 65535 := by
      have h1 : valFold 10 ((c :: ds).take 1) acc ≤ valFold 10 (c :: ds) acc :=
        valFold_take_le 10 (by norm_num) (c :: ds) 1 acc
      simp only [List.take_succ_cons, List.take_zero] at h1
      rw [valFold_cons, valFold_nil] at h1
      simp only [hd, Option.getD_some] at h1
      exact le_trans h1 hval
    simp only [parseU16Digits, hd]
    rw [if_neg (by omega)]
    rw [ih (acc * 10 + d) (fun x hx => hdig x (List.mem_cons_of_mem c hx))
      (hstep ▸ hval)]
    rw [← hstep]

theorem parseU16_decPrint (p : Nat) (hp : p < 65536) : parseU16 (decPrint p) = some p := by
  have hpp : p < 10 ^ 5 := by
    have : (10 : Nat) ^ 5 = 100000 := by norm_num
    omega
  obtain ⟨_, hne, hchars, hval, _⟩ := decPrint_spec 5 p (by norm_num) hpp
  obtain ⟨c, r, hcr⟩ : ∃ c r, decPrint p = c :: r := by
    cases h : decPrint p with
    | nil => exact absurd h hne
    | cons c r => exact ⟨c, r, rfl⟩
  have hplus : c ≠ '+' := by
    obtain ⟨d, hd10, hcd⟩ := hchars c (hcr ▸ List.mem_cons_self c r)
    rw [hcd]
    exact (decDigitChar_ne d hd10).1
  rw [hcr]
  show parseU16 (c :: r) = some p
  rw [parseU16]
  rw [if_neg hplus, ← hcr]
  rw [parseU16Digits_digits (decPrint p) 0
    (fun x hx => by
      obtain ⟨d, hd10, hcd⟩ := hchars x hx
      rw [hcd, toDigitQ_decDigitChar d hd10]
      rfl)
    (by rw [hval]; omega), hval]

theorem dot_head_nondigit (X : List Char) :
    ∀ ch, (('.' :: X).head? = some ch) → toDigitQ 10 ch = none := by
  intro ch h
  have : ch = '.' := (Option.some.inj h).symm
  subst this
  decide

theorem readIpv4_fmt (a b c d : Nat) (ha : a < 256) (hb : b < 256) (hc : c < 256)
    (hd : d < 256) (rest : List Char)
    (hrest : ∀ ch, rest.head? = some ch → toDigitQ 10 ch = none) :
    readIpv4 (fmtIpv4 a b c d ++ rest) = some ((a, b, c, d), rest) := by
  have hshape : fmtIpv4 a b c d ++ rest =
      decPrint a ++ '.' ::
        (decPrint b ++ '.' :: (decPrint c ++ '.' :: (decPrint d ++ rest))) := by
    simp [fmtIpv4, List.append_assoc]
  have h1 := readNumber_octet a ha
    ('.' :: (decPrint b ++ '.' :: (decPrint c ++ '.' :: (decPrint d ++ rest))))
    (dot_head_nondigit _)
  have h2 := readNumber_octet b hb
    ('.' :: (decPrint c ++ '.' :: (decPrint d ++ rest))) (dot_head_nondigit _)
  have h3 := readNumber_octet c hc ('.' :: (decPrint d ++ rest)) (dot_head_nondigit _)
  have h4 := readNumber_octet d hd rest hrest
  rw [hshape]
  simp [readIpv4, h1, h2, h3, h4, readGivenChar]

theorem readIpv4_nil : readIpv4 [] = none := by
  simp [readIpv4, readNumber_nil]

theorem readIpv4_head_nondigit (c : Char) (r : List Char)
    (hc : toDigitQ 10 c = none) : readIpv4 (c :: r) = none := by
  simp [readIpv4, readNumber_head_nondigit 10 255 3 false c r hc]

theorem readGroupsGo_stopper : ∀ (R i : Nat) (acc : List Nat) (s : List Char),
    (s = [] ∨ ∃ t, s = ':' :: ':' :: t) →
    readGroupsGo R i acc s = (acc, false, s) := by
  intro R i acc s hs
  cases R with
  | zero => rfl
  | succ R =>
    have hv4 : readSeparator ':' i readIpv4 s = none := by
      rw [readSeparator]
      rcases hs with hs | ⟨t, hs⟩ <;> subst hs
      · by_cases hi : i = 0
        · rw [if_pos hi]; exact readIpv4_nil
        · rw [if_neg hi]; rfl
      · by_cases hi : i = 0
        · rw [if_pos hi]
          exact readIpv4_head_nondigit ':' _ (by decide)
        · rw [if_neg hi]
          have : readGivenChar ':' (':' :: ':' :: t) = some (':' :: t) := by
            simp [readGivenChar]
          rw [this]
          exact readIpv4_head_nondigit ':' _ (by decide)
    have hhex : readSeparator ':' i (readNumber 16 65535 4 true) s = none := by
      rw [readSeparator]
      rcases hs with hs | ⟨t, hs⟩ <;> subst hs
      · by_cases hi : i = 0
        · rw [if_pos hi]; exact readNumber_nil 16 65535 4 true
        · rw [if_neg hi]; rfl
      · by_cases hi : i = 0
        · rw [if_pos hi]
          exact readNumber_head_nondigit 16 65535 4 true ':' _ (by decide)
        · rw [if_neg hi]
          have : readGivenChar ':' (':' :: ':' :: t) = some (':' :: t) := by
            simp [readGivenChar]
          rw [this]
          exact readNumber_head_nondigit 16 65535 4 true ':' _ (by decide)
    show readGroupsGo (R + 1) i acc s = _
    by_cases h1 : 1 ≤ R
    · simp only [readGroupsGo, if_pos h1, hv4, hhex]
    · simp only [readGroupsGo, if_neg h1, hhex]

theorem prefixColon_nil : prefixColon [] = [] := rfl

theorem prefixColon_cons (g : List Char) (gs : List (List Char)) :
    prefixColon (g :: gs) = ':' :: (g ++ prefixColon gs) := rfl

theorem mem_prefixColon : ∀ (L : List (List Char)) (c : Char),
    c ∈ prefixColon L → c = ':' ∨ ∃ g ∈ L, c ∈ g := by
  intro L
  induction L with
  | nil => intro c hc; exact absurd hc (List.not_mem_nil c)
  | cons g rest ih =>
    intro c hc
    rw [prefixColon_cons] at hc
    rcases List.mem_cons.mp hc with hc | hc
    · exact Or.inl hc
    · rcases List.mem_append.mp hc with hc | hc
      · exact Or.inr ⟨g, List.mem_cons_self g rest, hc⟩
      · rcases ih c hc with hc | ⟨g', hg', hc⟩
        · exact Or.inl hc
        · exact Or.inr ⟨g', List.mem_cons_of_mem g hg', hc⟩

theorem joinColon_eq : ∀ (gs : List (List Char)) (g : List Char),
    joinColon (g :: gs) = g ++ prefixColon gs := by
  intro gs
  induction gs with
  | nil => intro g; simp [joinColon, prefixColon_nil]
  | cons g' rest ih =>
    intro g
    show joinColon (g :: g' :: rest) = _
    rw [show joinColon (g :: g' :: rest) = g ++ ':' :: joinColon (g' :: rest) from rfl,
      ih g', prefixColon_cons]

theorem mem_joinColon (L : List (List Char)) (c : Char) (hc : c ∈ joinColon L) :
    c = ':' ∨ ∃ g ∈ L, c ∈ g := by
  cases L with
  | nil => exact absurd hc (List.not_mem_nil c)
  | cons g rest =>
    rw [joinColon_eq] at hc
    rcases List.mem_append.mp hc with hc | hc
    · exact Or.inr ⟨g, List.mem_cons_self g rest, hc⟩
    · rcases mem_prefixColon rest c hc with hc | ⟨g', hg', hc⟩
      · exact Or.inl hc
      · exact Or.inr ⟨g', List.mem_cons_of_mem g hg', hc⟩

theorem mem_map_hexPrint (l : List Nat) (hl : ∀ g ∈ l, g < 65536) (g : List Char)
    (hg : g ∈ l.map hexPrint) (c : Char) (hc : c ∈ g) :
    ∃ d, d < 16 ∧ c = hexDigitChar d := by
  obtain ⟨x, hx, hgx⟩ := List.mem_map.mp hg
  obtain ⟨_, _, hchars, _⟩ := hexPrint_spec x (hl x hx)
  exact hchars c (hgx ▸ hc)

theorem no_dot_hex_input (g : Nat) (hg : g < 65536) (gs : List Nat)
    (hgs : ∀ x ∈ gs, x < 65536) (stop : List Char) (hnd : '.' ∉ stop) :
    '.' ∉ hexPrint g ++ (prefixColon (gs.map hexPrint) ++ stop) := by
  intro hmem
  rcases List.mem_append.mp hmem with hmem | hmem
  · obtain ⟨_, _, hchars, _⟩ := hexPrint_spec g hg
    obtain ⟨d, hd16, hcd⟩ := hchars '.' hmem
    exact absurd hcd.symm (hexDigitChar_ne d hd16).2.1
  · rcases List.mem_append.mp hmem with hmem | hmem
    · rcases mem_prefixColon _ '.' hmem with hc | ⟨g', hg', hc⟩
      · exact absurd hc (by decide)
      · obtain ⟨d, hd16, hcd⟩ := mem_map_hexPrint gs hgs g' hg' '.' hc
        exact absurd hcd.symm (hexDigitChar_ne d hd16).2.1
    · exact hnd hmem

theorem prefixColon_stop_head (gs : List (List Char)) (stop : List Char)
    (hstop : stop = [] ∨ ∃ t, stop = ':' :: ':' :: t) :
    ∀ ch, (prefixColon gs ++ stop).head? = some ch → toDigitQ 16 ch = none := by
  intro ch h
  cases gs with
  | nil =>
    rw [prefixColon_nil, List.nil_append] at h
    rcases hstop with hs | ⟨t, hs⟩ <;> subst hs
    · exact absurd h (by simp)
    · have : ch = ':' := (Option.some.inj h).symm
      subst this; decide
  | cons g rest =>
    rw [prefixColon_cons, List.cons_append] at h
    have : ch = ':' := (Option.some.inj h).symm
    subst this; decide

theorem readGroupsGo_groups : ∀ (gs : List Nat) (R i : Nat) (acc : List Nat)
    (stop : List Char),
    gs.length ≤ R → 1 ≤ i →
    (∀ g ∈ gs, g < 65536) →
    (stop = [] ∨ ∃ t, stop = ':' :: ':' :: t) →
    '.' ∉ stop →
    readGroupsGo R i acc (prefixColon (gs.map hexPrint) ++ stop) =
      (acc ++ gs, false, stop) := by
  intro gs
  induction gs with
  | nil =>
    intro R i acc stop _ _ _ hstop _
    rw [List.map_nil, prefixColon_nil, List.nil_append, List.append_nil]
    exact readGroupsGo_stopper R i acc stop hstop
  | cons g gs ih =>
    intro R i acc stop hlen hi hbound hstop hnd
    cases R with
    | zero => simp at hlen
    | succ R =>
      have hg : g < 65536 := hbound g (List.mem_cons_self g gs)
      have hgs : ∀ x ∈ gs, x < 65536 := fun x hx => hbound x (List.mem_cons_of_mem g hx)
      have hshape : prefixColon ((g :: gs).map hexPrint) ++ stop =
          ':' :: (hexPrint g ++ (prefixColon (gs.map hexPrint) ++ stop)) := by
        rw [List.map_cons, prefixColon_cons, List.cons_append, List.append_assoc]
      rw [hshape]
      have hne0 : i ≠ 0 := by omega
      have hgiven : readGivenChar ':'
          (':' :: (hexPrint g ++ (prefixColon (gs.map hexPrint) ++ stop))) =
          some (hexPrint g ++ (prefixColon (gs.map hexPrint) ++ stop)) := by
        simp [readGivenChar]
      have hv4 : readSeparator ':' i readIpv4
          (':' :: (hexPrint g ++ (prefixColon (gs.map hexPrint) ++ stop))) = none := by
        rw [readSeparator, if_neg hne0, hgiven]
        exact readIpv4_none_of_no_dot _ (no_dot_hex_input g hg gs hgs stop hnd)
      have hhex : readSeparator ':' i (readNumber 16 65535 4 true)
          (':' :: (hexPrint g ++ (prefixColon (gs.map hexPrint) ++ stop))) =
          some (g, prefixColon (gs.map hexPrint) ++ stop) := by
        rw [readSeparator, if_neg hne0, hgiven]
        exact readNumber_hexGroup g hg _ (prefixColon_stop_head _ stop hstop)
      have hrec := ih R (i + 1) (acc ++ [g]) stop
        (by simp only [List.length_cons] at hlen; omega) (by omega) hgs hstop hnd
      show readGroupsGo (R + 1) i acc _ = _
      by_cases h1 : 1 ≤ R
      · simp only [readGroupsGo, if_pos h1, hv4, hhex, hrec]
        rw [List.append_assoc]
        rfl
      · simp only [readGroupsGo, if_neg h1, hhex, hrec]
        rw [List.append_assoc]
        rfl

theorem readGroupsGo_start (g : Nat) (gs : List Nat) (R : Nat) (acc : List Nat)
    (stop : List Char)
    (hlen : gs.length + 1 ≤ R) (hg : g < 65536) (hgs : ∀ x ∈ gs, x < 65536)
    (hstop : stop = [] ∨ ∃ t, stop = ':' :: ':' :: t) (hnd : '.' ∉ stop) :
    readGroupsGo R 0 acc ((hexPrint g ++ prefixColon (gs.map hexPrint)) ++ stop) =
      (acc ++ g :: gs, false, stop) := by
  cases R with
  | zero => simp at hlen
  | succ R =>
    have hshape : (hexPrint g ++ prefixColon (gs.map hexPrint)) ++ stop =
        hexPrint g ++ (prefixColon (gs.map hexPrint) ++ stop) := by
      rw [List.append_assoc]
    rw [hshape]
    have hv4 : readSeparator ':' 0 readIpv4
        (hexPrint g ++ (prefixColon (gs.map hexPrint) ++ stop)) = none := by
      rw [readSeparator, if_pos rfl]
      exact readIpv4_none_of_no_dot _ (no_dot_hex_input g hg gs hgs stop hnd)
    have hhex : readSeparator ':' 0 (readNumber 16 65535 4 true)
        (hexPrint g ++ (prefixColon (gs.map hexPrint) ++ stop)) =
        some (g, prefixColon (gs.map hexPrint) ++ stop) := by
      rw [readSeparator, if_pos rfl]
      exact readNumber_hexGroup g hg _ (prefixColon_stop_head _ stop hstop)
    have hrec := readGroupsGo_groups gs R 1 (acc ++ [g]) stop
      (by omega) (by omega) hgs hstop hnd
    show readGroupsGo (R + 1) 0 acc _ = _
    by_cases h1 : 1 ≤ R
    · simp only [readGroupsGo, if_pos h1, hv4, hhex, hrec]
      rw [List.append_assoc]
      rfl
    · simp only [readGroupsGo, if_neg h1, hhex, hrec]
      rw [List.append_assoc]
      rfl

theorem run_extend (pre : List Nat) (x s l : Nat) (hsl : s + l ≤ pre.length)
    (hrun : (pre.drop s).take l = List.replicate l 0) :
    ((pre ++ [x]).drop s).take l = List.replicate l 0 := by
  rw [List.drop_append_of_le_length (by omega)]
  rw [List.take_append_of_le_length (by rw [List.length_drop]; omega)]
  exact hrun

theorem zeroSpanGo_cons_zero (rest : List Nat) (i cs cl bs bl : Nat) :
    zeroSpanGo (0 :: rest) i cs cl bs bl =
      (if cl + 1 > bl
       then zeroSpanGo rest (i + 1) (if cl = 0 then i else cs) (cl + 1)
         (if cl = 0 then i else cs) (cl + 1)
       else zeroSpanGo rest (i + 1) (if cl = 0 then i else cs) (cl + 1) bs bl) := rfl

theorem zeroSpanGo_cons_pos (s : Nat) (hs : s ≠ 0) (rest : List Nat)
    (i cs cl bs bl : Nat) :
    zeroSpanGo (s :: rest) i cs cl bs bl = zeroSpanGo rest (i + 1) 0 0 bs bl := by
  simp only [zeroSpanGo, if_neg hs]

theorem span_conclude (pre : List Nat) (x : Nat) (rest : List Nat) (st zl : Nat)
    (h : st + zl ≤ (pre ++ [x]).length + rest.length ∧
      (((pre ++ [x]) ++ rest).drop st).take zl = List.replicate zl 0) :
    st + zl ≤ pre.length + (x :: rest).length ∧
      ((pre ++ x :: rest).drop st).take zl = List.replicate zl 0 := by
  obtain ⟨h1, h2⟩ := h
  constructor
  · simp only [List.length_append, List.length_singleton] at h1
    simp only [List.length_cons]
    omega
  · rw [List.append_assoc] at h2
    simpa using h2

theorem zeroSpanGo_spec : ∀ (segs : List Nat) (pre : List Nat) (cs cl bs bl st zl : Nat),
    (cl = 0 ∨ cs + cl = pre.length) →
    (pre.drop cs).take cl = List.replicate cl 0 →
    bs + bl ≤ pre.length →
    (pre.drop bs).take bl = List.replicate bl 0 →
    zeroSpanGo segs pre.length cs cl bs bl = (st, zl) →
    st + zl ≤ pre.length + segs.length ∧
      ((pre ++ segs).drop st).take zl = List.replicate zl 0 := by
  intro segs
  induction segs with
  | nil =>
    intro pre cs cl bs bl st zl _ _ hb hbrun hgo
    rw [zeroSpanGo] at hgo
    obtain ⟨rfl, rfl⟩ := Prod.mk.inj hgo
    refine ⟨by simpa using hb, ?_⟩
    rw [List.append_nil]
    exact hbrun
  | cons s rest ih =>
    intro pre cs cl bs bl st zl hcur hcrun hb hbrun hgo
    have hpre1 : pre.length + 1 = (pre ++ [s]).length := by simp
    by_cases hs : s = 0
    · subst hs
      rw [zeroSpanGo_cons_zero] at hgo
      by_cases hcl : cl = 0
      · subst hcl
        rw [if_pos rfl] at hgo
        have hnew_run : ((pre ++ [0]).drop pre.length).take (0 + 1) =
            List.replicate (0 + 1) 0 := by
          rw [List.drop_left]
          rfl
        by_cases hgt : 0 + 1 > bl
        · rw [if_pos hgt] at hgo
          rw [hpre1] at hgo
          exact span_conclude pre 0 rest st zl
            (ih (pre ++ [0]) pre.length (0 + 1) pre.length (0 + 1) st zl
              (Or.inr (by simp)) hnew_run (by simp) hnew_run hgo)
        · rw [if_neg hgt] at hgo
          rw [hpre1] at hgo
          exact span_conclude pre 0 rest st zl
            (ih (pre ++ [0]) pre.length (0 + 1) bs bl st zl
              (Or.inr (by simp)) hnew_run (by simp; omega)
              (run_extend pre 0 bs bl hb hbrun) hgo)
      · rw [if_neg hcl] at hgo
        have hcc : cs + cl = pre.length := hcur.resolve_left hcl
        have hcs_le : cs ≤ pre.length := by omega
        have hdl : (pre.drop cs).length = cl := by rw [List.length_drop]; omega
        have hfull : pre.drop cs = List.replicate cl 0 := by
          rw [← hcrun]
          exact (List.take_of_length_le (le_of_eq hdl)).symm
        have hnew_run : ((pre ++ [0]).drop cs).take (cl + 1) =
            List.replicate (cl + 1) 0 := by
          rw [List.drop_append_of_le_length hcs_le]
          rw [List.take_of_length_le (by simp [hdl])]
          rw [hfull]
          exact (List.replicate_succ' cl 0).symm
        by_cases hgt : cl + 1 > bl
        · rw [if_pos hgt] at hgo
          rw [hpre1] at hgo
          exact span_conclude pre 0 rest st zl
            (ih (pre ++ [0]) cs (cl + 1) cs (cl + 1) st zl
              (Or.inr (by simp; omega)) hnew_run (by simp; omega) hnew_run hgo)
        · rw [if_neg hgt] at hgo
          rw [hpre1] at hgo
          exact span_conclude pre 0 rest st zl
            (ih (pre ++ [0]) cs (cl + 1) bs bl st zl
              (Or.inr (by simp; omega)) hnew_run (by simp; omega)
              (run_extend pre 0 bs bl hb hbrun) hgo)
    · rw [zeroSpanGo_cons_pos s hs] at hgo
      rw [hpre1] at hgo
      exact span_conclude pre s rest st zl
        (ih (pre ++ [s]) 0 0 bs bl st zl (Or.inl rfl) (by simp) (by simp; omega)
          (run_extend pre s bs bl hb hbrun) hgo)

theorem zeroSpan_spec (segs : List Nat) (st zl : Nat) (h : zeroSpan segs = (st, zl)) :
    st + zl ≤ segs.length ∧ (segs.drop st).take zl = List.replicate zl 0 := by
  have h0 : zeroSpanGo segs (List.length ([] : List Nat)) 0 0 0 0 = (st, zl) := h
  have := zeroSpanGo_spec segs [] 0 0 0 0 st zl (Or.inl rfl) (by simp) (by simp)
    (by simp) h0
  simpa using this

theorem readIpv6_full (g0 g1 g2 g3 g4 g5 g6 g7 : Nat)
    (h0 : g0 < 65536) (h1 : g1 < 65536) (h2 : g2 < 65536) (h3 : g3 < 65536)
    (h4 : g4 < 65536) (h5 : g5 < 65536) (h6 : g6 < 65536) (h7 : g7 < 65536) :
    readIpv6 (joinColon ([g0, g1, g2, g3, g4, g5, g6, g7].map hexPrint)) =
      some ([g0, g1, g2, g3, g4, g5, g6, g7], []) := by
  have hgs : ∀ x ∈ [g1, g2, g3, g4, g5, g6, g7], x < 65536 := by
    intro x hx
    simp only [List.mem_cons, List.not_mem_nil, or_false] at hx
    rcases hx with rfl | rfl | rfl | rfl | rfl | rfl | rfl <;> assumption
  have hshape : joinColon [hexPrint g0, hexPrint g1, hexPrint g2, hexPrint g3,
      hexPrint g4, hexPrint g5, hexPrint g6, hexPrint g7] =
      (hexPrint g0 ++ prefixColon ([g1, g2, g3, g4, g5, g6, g7].map hexPrint)) ++ [] := by
    rw [show [hexPrint g0, hexPrint g1, hexPrint g2, hexPrint g3, hexPrint g4,
      hexPrint g5, hexPrint g6, hexPrint g7] =
      hexPrint g0 :: [g1, g2, g3, g4, g5, g6, g7].map hexPrint from by
        simp only [List.map_cons, List.map_nil],
      joinColon_eq, List.append_nil]
  have hgroups : readGroups 8 (joinColon [hexPrint g0, hexPrint g1, hexPrint g2,
      hexPrint g3, hexPrint g4, hexPrint g5, hexPrint g6, hexPrint g7]) =
      ([g0, g1, g2, g3, g4, g5, g6, g7], false, []) := by
    rw [hshape]
    have := readGroupsGo_start g0 [g1, g2, g3, g4, g5, g6, g7] 8 [] []
      (by simp) h0 hgs (Or.inl rfl) (by simp)
    simpa using this
  simp [readIpv6, hgroups]

theorem readNumber_ffff (t : List Char) :
    readNumber 16 65535 4 true ('f' :: 'f' :: 'f' :: 'f' :: ':' :: t) =
      some (65535, ':' :: t) := by
  have := readNumber_digits 16 65535 4 (by norm_num) true ['f', 'f', 'f', 'f']
    (':' :: t) (by decide) (by decide)
    (fun c hc => by
      have hcc : c = ':' := (Option.some.inj hc).symm
      subst hcc; decide)
    (by decide) (by decide) (Or.inl rfl)
  rw [show valFold 16 ['f', 'f', 'f', 'f'] 0 = 65535 from by decide] at this
  simpa using this

theorem readIpv6_mapped (s6 s7 : Nat) (h6 : s6 < 65536) (h7 : s7 < 65536) :
    readIpv6 (':' :: ':' :: 'f' :: 'f' :: 'f' :: 'f' :: ':' ::
      fmtIpv4 (s6 / 256) (s6 % 256) (s7 / 256) (s7 % 256)) =
      some ([0, 0, 0, 0, 0, 65535, s6, s7], []) := by
  have hipv4 : readIpv4 (fmtIpv4 (s6 / 256) (s6 % 256) (s7 / 256) (s7 % 256)) =
      some ((s6 / 256, s6 % 256, s7 / 256, s7 % 256), []) := by
    have := readIpv4_fmt (s6 / 256) (s6 % 256) (s7 / 256) (s7 % 256)
      (by omega) (by omega) (by omega) (by omega) [] (by simp)
    simpa using this
  have hstep2 : readGroupsGo 6 1 [65535]
      (':' :: fmtIpv4 (s6 / 256) (s6 % 256) (s7 / 256) (s7 % 256)) =
      ([65535, s6, s7], true, []) := by
    show readGroupsGo (5 + 1) 1 [65535] _ = _
    have hsep : readSeparator ':' 1 readIpv4
        (':' :: fmtIpv4 (s6 / 256) (s6 % 256) (s7 / 256) (s7 % 256)) =
        some ((s6 / 256, s6 % 256, s7 / 256, s7 % 256), []) := by
      rw [readSeparator, if_neg one_ne_zero]
      have hgiven : readGivenChar ':'
          (':' :: fmtIpv4 (s6 / 256) (s6 % 256) (s7 / 256) (s7 % 256)) =
          some (fmtIpv4 (s6 / 256) (s6 % 256) (s7 / 256) (s7 % 256)) := by
        simp [readGivenChar]
      rw [hgiven]
      exact hipv4
    simp only [readGroupsGo, if_pos (by norm_num : 1 ≤ 5), hsep]
    have e6 : s6 / 256 * 256 + s6 % 256 = s6 := by omega
    have e7 : s7 / 256 * 256 + s7 % 256 = s7 := by omega
    rw [e6, e7]
    rfl
  have hstep1 : readGroupsGo 7 0 []
      ('f' :: 'f' :: 'f' :: 'f' :: ':' ::
        fmtIpv4 (s6 / 256) (s6 % 256) (s7 / 256) (s7 % 256)) =
      ([65535, s6, s7], true, []) := by
    show readGroupsGo (6 + 1) 0 [] _ = _
    have hv4 : readSeparator ':' 0 readIpv4
        ('f' :: 'f' :: 'f' :: 'f' :: ':' ::
          fmtIpv4 (s6 / 256) (s6 % 256) (s7 / 256) (s7 % 256)) = none := by
      rw [readSeparator, if_pos rfl]
      exact readIpv4_head_nondigit 'f' _ (by decide)
    have hhex : readSeparator ':' 0 (readNumber 16 65535 4 true)
        ('f' :: 'f' :: 'f' :: 'f' :: ':' ::
          fmtIpv4 (s6 / 256) (s6 % 256) (s7 / 256) (s7 % 256)) =
        some (65535, ':' :: fmtIpv4 (s6 / 256) (s6 % 256) (s7 / 256) (s7 % 256)) := by
      rw [readSeparator, if_pos rfl]
      exact readNumber_ffff _
    simp only [readGroupsGo, if_pos (by norm_num : 1 ≤ 6), hv4, hhex]
    simpa using hstep2
  have hstop : readGroups 8
      (':' :: ':' :: 'f' :: 'f' :: 'f' :: 'f' :: ':' ::
        fmtIpv4 (s6 / 256) (s6 % 256) (s7 / 256) (s7 % 256)) =
      ([], false, ':' :: ':' :: 'f' :: 'f' :: 'f' :: 'f' :: ':' ::
        fmtIpv4 (s6 / 256) (s6 % 256) (s7 / 256) (s7 % 256)) :=
    readGroupsGo_stopper 8 0 [] _ (Or.inr ⟨_, rfl⟩)
  have hg7 : readGroups 7 ('f' :: 'f' :: 'f' :: 'f' :: ':' ::
      fmtIpv4 (s6 / 256) (s6 % 256) (s7 / 256) (s7 % 256)) =
      ([65535, s6, s7], true, []) := hstep1
  simp [readIpv6, hstop, readGivenChar, hg7, List.replicate]

theorem readIpv6_compressed (segs : List Nat) (st zl : Nat)
    (hlt : ∀ g ∈ segs, g < 65536) (hlen : segs.length = 8)
    (hbound : st + zl ≤ 8) (hzero : (segs.drop st).take zl = List.replicate zl 0)
    (hzl : 2 ≤ zl) :
    readIpv6 (joinColon ((segs.take st).map hexPrint) ++ ':' :: ':' ::
      joinColon ((segs.drop (st + zl)).map hexPrint)) = some (segs, []) := by
  have hAlt : ∀ x ∈ segs.take st, x < 65536 := fun x hx => hlt x (List.mem_of_mem_take hx)
  have hBlt : ∀ x ∈ segs.drop (st + zl), x < 65536 :=
    fun x hx => hlt x (List.mem_of_mem_drop hx)
  have hAlen : (segs.take st).length = st := by rw [List.length_take]; omega
  have hBlen : (segs.drop (st + zl)).length = 8 - st - zl := by
    rw [List.length_drop]; omega
  have hndstop : '.' ∉ ':' :: ':' :: joinColon ((segs.drop (st + zl)).map hexPrint) := by
    intro hm
    rcases List.mem_cons.mp hm with hm | hm
    · exact absurd hm (by decide)
    rcases List.mem_cons.mp hm with hm | hm
    · exact absurd hm (by decide)
    rcases mem_joinColon _ '.' hm with hm | ⟨g', hg', hm⟩
    · exact absurd hm (by decide)
    · obtain ⟨d, hd16, hcd⟩ := mem_map_hexPrint _ hBlt g' hg' '.' hm
      exact absurd hcd.symm (hexDigitChar_ne d hd16).2.1
  have htail : readGroups (8 - (st + 1)) (joinColon ((segs.drop (st + zl)).map hexPrint)) =
      (segs.drop (st + zl), false, []) := by
    cases hB : segs.drop (st + zl) with
    | nil =>
      rw [List.map_nil]
      show readGroupsGo _ 0 [] (joinColon []) = _
      rw [show joinColon ([] : List (List Char)) = [] from rfl]
      exact readGroupsGo_stopper _ 0 [] [] (Or.inl rfl)
    | cons b0 B' =>
      have hb0 : b0 < 65536 := hBlt b0 (hB ▸ List.mem_cons_self b0 B')
      have hB'lt : ∀ x ∈ B', x < 65536 :=
        fun x hx => hBlt x (hB ▸ List.mem_cons_of_mem b0 hx)
      have hlenB : B'.length + 1 ≤ 8 - (st + 1) := by
        have hB2 := hBlen
        rw [hB] at hB2
        simp only [List.length_cons] at hB2
        omega
      rw [List.map_cons, joinColon_eq]
      have hstart := readGroupsGo_start b0 B' (8 - (st + 1)) [] [] hlenB hb0 hB'lt
        (Or.inl rfl) (by simp)
      rw [List.append_nil] at hstart
      simpa using hstart
  have hhead : readGroups 8 (joinColon ((segs.take st).map hexPrint) ++ ':' :: ':' ::
      joinColon ((segs.drop (st + zl)).map hexPrint)) =
      (segs.take st, false,
        ':' :: ':' :: joinColon ((segs.drop (st + zl)).map hexPrint)) := by
    cases hA : segs.take st with
    | nil =>
      rw [List.map_nil, show joinColon ([] : List (List Char)) = [] from rfl,
        List.nil_append]
      exact readGroupsGo_stopper 8 0 [] _ (Or.inr ⟨_, rfl⟩)
    | cons a0 A' =>
      have ha0 : a0 < 65536 := hAlt a0 (hA ▸ List.mem_cons_self a0 A')
      have hA'lt : ∀ x ∈ A', x < 65536 :=
        fun x hx => hAlt x (hA ▸ List.mem_cons_of_mem a0 hx)
      have hlenA : A'.length + 1 ≤ 8 := by
        have hA2 := hAlen
        rw [hA] at hA2
        simp only [List.length_cons] at hA2
        omega
      rw [List.map_cons, joinColon_eq]
      have hstart := readGroupsGo_start a0 A' 8 []
        (':' :: ':' :: joinColon ((segs.drop (st + zl)).map hexPrint))
        hlenA ha0 hA'lt (Or.inr ⟨_, rfl⟩) hndstop
      simpa using hstart
  have hstlt : (segs.take st).length ≠ 8 := by rw [hAlen]; omega
  simp only [readIpv6, hhead]
  rw [if_neg hstlt]
  have hg1 : readGivenChar ':'
      (':' :: ':' :: joinColon ((segs.drop (st + zl)).map hexPrint)) =
      some (':' :: joinColon ((segs.drop (st + zl)).map hexPrint)) := by
    simp [readGivenChar]
  have hg2 : readGivenChar ':' (':' :: joinColon ((segs.drop (st + zl)).map hexPrint)) =
      some (joinColon ((segs.drop (st + zl)).map hexPrint)) := by
    simp [readGivenChar]
  simp only [hg1, hg2, hAlen, htail, Bool.false_eq_true, if_false]
  have hcount : 8 - st - (8 - st - zl) = zl := by omega
  have hdd : segs.drop (st + zl) = (segs.drop st).drop zl := by
    rw [List.drop_drop, Nat.add_comm]
  rw [hBlen, hcount, ← hzero, hdd, List.append_assoc, List.take_append_drop,
    List.take_append_drop]

theorem ipv6FromStr_fmtIpv6 (s0 s1 s2 s3 s4 s5 s6 s7 : Nat)
    (h0 : s0 < 65536) (h1 : s1 < 65536) (h2 : s2 < 65536) (h3 : s3 < 65536)
    (h4 : s4 < 65536) (h5 : s5 < 65536) (h6 : s6 < 65536) (h7 : s7 < 65536) :
    ipv6FromStr (fmtIpv6 s0 s1 s2 s3 s4 s5 s6 s7) =
      some [s0, s1, s2, s3, s4, s5, s6, s7] := by
  have hseglt : ∀ g ∈ [s0, s1, s2, s3, s4, s5, s6, s7], g < 65536 := by
    intro g hg
    simp only [List.mem_cons, List.not_mem_nil, or_false] at hg
    rcases hg with rfl | rfl | rfl | rfl | rfl | rfl | rfl | rfl <;> assumption
  by_cases hmap : s0 = 0 ∧ s1 = 0 ∧ s2 = 0 ∧ s3 = 0 ∧ s4 = 0 ∧ s5 = 65535
  · obtain ⟨rfl, rfl, rfl, rfl, rfl, rfl⟩ := hmap
    rw [fmtIpv6, if_pos ⟨rfl, rfl, rfl, rfl, rfl, rfl⟩]
    simp only [ipv6FromStr, readIpv6_mapped s6 s7 h6 h7]
  · rw [fmtIpv6, if_neg hmap]
    cases hspan : zeroSpan [s0, s1, s2, s3, s4, s5, s6, s7] with
    | mk st zl =>
      obtain ⟨hb, hz⟩ := zeroSpan_spec [s0, s1, s2, s3, s4, s5, s6, s7] st zl hspan
      simp only [hspan]
      by_cases hgt : zl > 1
      · rw [if_pos hgt]
        have hres := readIpv6_compressed [s0, s1, s2, s3, s4, s5, s6, s7] st zl
          hseglt (by simp) (by simpa using hb) hz (by omega)
        simp only [ipv6FromStr, hres]
      · rw [if_neg hgt]
        have hres := readIpv6_full s0 s1 s2 s3 s4 s5 s6 s7 h0 h1 h2 h3 h4 h5 h6 h7
        simp only [ipv6FromStr, hres]

theorem findIdx_no_then_hit (p : Char → Bool) :
    ∀ (xs : List Char) (i : Nat) (y : Char) (ys : List Char),
      (∀ x ∈ xs, p x = false) → p y = true →
      List.findIdx? p (xs ++ y :: ys) i = some (i + xs.length) := by
  intro xs
  induction xs with
  | nil =>
    intro i y ys _ hy
    rw [List.nil_append, List.findIdx?_cons, if_pos hy]
    simp
  | cons x xs ih =>
    intro i y ys hxs hy
    rw [List.cons_append, List.findIdx?_cons, hxs x (List.mem_cons_self x xs)]
    simp only [Bool.false_eq_true, if_false]
    rw [ih (i + 1) y ys (fun z hz => hxs z (List.mem_cons_of_mem x hz)) hy]
    simp only [List.length_cons]
    congr 1
    omega

theorem rfindIdx_append (A B : List Char) (hB : ':' ∉ B) :
    rfindIdx ':' (A ++ ':' :: B) = some A.length := by
  have hrev : (A ++ ':' :: B).reverse = B.reverse ++ ':' :: A.reverse := by
    rw [List.reverse_append, List.reverse_cons, List.append_assoc]
    rfl
  have hfind : List.findIdx? (fun x => decide (x = ':')) (A ++ ':' :: B).reverse =
      some B.length := by
    rw [hrev]
    rw [findIdx_no_then_hit (fun x => decide (x = ':')) B.reverse 0 ':' A.reverse
      (fun x hx => by
        have hne : x ≠ ':' := fun h => hB (h ▸ List.mem_reverse.mp hx)
        simp [hne])
      (by simp)]
    simp
  simp only [rfindIdx, hfind]
  congr 1
  simp only [List.length_append, List.length_cons]
  omega

theorem fmtIpv4_chars (a b c d : Nat) (ha : a < 256) (hb : b < 256) (hc : c < 256)
    (hd : d < 256) : ∀ ch ∈ fmtIpv4 a b c d,
      (∃ k, k < 10 ∧ ch = decDigitChar k) ∨ ch = '.' := by
  have hlt : ∀ x : Nat, x < 256 → x < 10 ^ 3 := by
    intro x hx
    have : (10 : Nat) ^ 3 = 1000 := by norm_num
    omega
  obtain ⟨_, _, hca, _, _⟩ := decPrint_spec 3 a (by norm_num) (hlt a ha)
  obtain ⟨_, _, hcb, _, _⟩ := decPrint_spec 3 b (by norm_num) (hlt b hb)
  obtain ⟨_, _, hcc, _, _⟩ := decPrint_spec 3 c (by norm_num) (hlt c hc)
  obtain ⟨_, _, hcd, _, _⟩ := decPrint_spec 3 d (by norm_num) (hlt d hd)
  intro ch hm
  rw [fmtIpv4] at hm
  rcases List.mem_append.mp hm with h1 | h1
  · rcases List.mem_append.mp h1 with h2 | h2
    · rcases List.mem_append.mp h2 with h3 | h3
      · exact Or.inl (hca ch h3)
      · rcases List.mem_cons.mp h3 with h4 | h4
        · exact Or.inr h4
        · exact Or.inl (hcb ch h4)
    · rcases List.mem_cons.mp h2 with h4 | h4
      · exact Or.inr h4
      · exact Or.inl (hcc ch h4)
  · rcases List.mem_cons.mp h1 with h4 | h4
    · exact Or.inr h4
    · exact Or.inl (hcd ch h4)

theorem joinColon_hex_no_bracket (l : List Nat) (hl : ∀ g ∈ l, g < 65536) :
    ']' ∉ joinColon (l.map hexPrint) := by
  intro hm
  rcases mem_joinColon _ ']' hm with h | ⟨g', hg', h⟩
  · exact absurd h (by decide)
  · obtain ⟨d, hd16, hcd⟩ := mem_map_hexPrint l hl g' hg' ']' h
    exact absurd hcd.symm (hexDigitChar_ne d hd16).2.2.1

theorem fmtIpv6_no_bracket (s0 s1 s2 s3 s4 s5 s6 s7 : Nat)
    (hseglt : ∀ g ∈ [s0, s1, s2, s3, s4, s5, s6, s7], g < 65536) :
    ∀ c ∈ fmtIpv6 s0 s1 s2 s3 s4 s5 s6 s7, c ≠ ']' := by
  intro c hm hceq
  subst hceq
  rw [fmtIpv6] at hm
  by_cases hmap : s0 = 0 ∧ s1 = 0 ∧ s2 = 0 ∧ s3 = 0 ∧ s4 = 0 ∧ s5 = 65535
  · rw [if_pos hmap] at hm
    rcases List.mem_cons.mp hm with h | hm
    · exact absurd h (by decide)
    rcases List.mem_cons.mp hm with h | hm
    · exact absurd h (by decide)
    rcases List.mem_cons.mp hm with h | hm
    · exact absurd h (by decide)
    rcases List.mem_cons.mp hm with h | hm
    · exact absurd h (by decide)
    rcases List.mem_cons.mp hm with h | hm
    · exact absurd h (by decide)
    rcases List.mem_cons.mp hm with h | hm
    · exact absurd h (by decide)
    rcases List.mem_cons.mp hm with h | hm
    · exact absurd h (by decide)
    have h6 : s6 < 65536 := hseglt s6 (by simp)
    have h7 : s7 < 65536 := hseglt s7 (by simp)
    rcases fmtIpv4_chars (s6 / 256) (s6 % 256) (s7 / 256) (s7 % 256)
      (by omega) (by omega) (by omega) (by omega) ']' hm with ⟨k, hk, he⟩ | he
    · exact absurd he.symm (decDigitChar_ne k hk).2.2.2.2
    · exact absurd he (by decide)
  · rw [if_neg hmap] at hm
    cases hspan : zeroSpan [s0, s1, s2, s3, s4, s5, s6, s7] with
    | mk st zl =>
      simp only [hspan] at hm
      by_cases hgt : zl > 1
      · rw [if_pos hgt] at hm
        rcases List.mem_append.mp hm with h | h
        · exact joinColon_hex_no_bracket _
            (fun x hx => hseglt x (List.mem_of_mem_take hx)) h
        rcases List.mem_cons.mp h with h | h
        · exact absurd h (by decide)
        rcases List.mem_cons.mp h with h | h
        · exact absurd h (by decide)
        · exact joinColon_hex_no_bracket _
            (fun x hx => hseglt x (List.mem_of_mem_drop hx)) h
      · rw [if_neg hgt] at hm
        exact joinColon_hex_no_bracket _ hseglt hm

theorem addressFromStr_fmt_v4 (a b c d p : Nat) (ha : a < 256) (hb : b < 256)
    (hc : c < 256) (hd : d < 256) (hp : p < 65536) :
    addressFromStr (fmtIpv4 a b c d ++ ':' :: decPrint p) =
      some (Address.v4 a b c d p) := by
  have hxp : a < 10 ^ 3 := by
    have : (10 : Nat) ^ 3 = 1000 := by norm_num
    omega
  obtain ⟨_, hane, hachars, _, _⟩ := decPrint_spec 3 a (by norm_num) hxp
  obtain ⟨c0, r0, hcr⟩ : ∃ c0 r0, decPrint a = c0 :: r0 := by
    cases h : decPrint a with
    | nil => exact absurd h hane
    | cons c0 r0 => exact ⟨c0, r0, rfl⟩
  have hhead : ¬ (fmtIpv4 a b c d ++ ':' :: decPrint p).head? = some '[' := by
    intro hh
    have hsh : fmtIpv4 a b c d ++ ':' :: decPrint p =
        c0 :: (r0 ++ ('.' :: decPrint b ++ '.' :: decPrint c ++ '.' :: decPrint d) ++
          ':' :: decPrint p) := by
      rw [fmtIpv4]
      rw [show decPrint a ++ '.' :: decPrint b ++ '.' :: decPrint c ++ '.' :: decPrint d =
        decPrint a ++ ('.' :: decPrint b ++ '.' :: decPrint c ++ '.' :: decPrint d) from by
          simp [List.append_assoc]]
      rw [hcr, List.cons_append, List.cons_append]
    rw [hsh] at hh
    have hc0 : c0 = '[' := Option.some.inj hh
    obtain ⟨k, hk, hck⟩ := hachars c0 (hcr ▸ List.mem_cons_self c0 r0)
    rw [hc0] at hck
    exact absurd hck.symm (decDigitChar_ne k hk).2.2.2.1
  have hnotB : ':' ∉ decPrint p := by
    intro hm
    have hpp : p < 10 ^ 5 := by
      have : (10 : Nat) ^ 5 = 100000 := by norm_num
      omega
    obtain ⟨_, _, hchars, _, _⟩ := decPrint_spec 5 p (by norm_num) hpp
    obtain ⟨k, hk, hck⟩ := hchars ':' hm
    exact absurd hck.symm (decDigitChar_ne k hk).2.1
  have hrf : rfindIdx ':' (fmtIpv4 a b c d ++ ':' :: decPrint p) =
      some (fmtIpv4 a b c d).length := rfindIdx_append _ _ hnotB
  have htake : (fmtIpv4 a b c d ++ ':' :: decPrint p).take (fmtIpv4 a b c d).length =
      fmtIpv4 a b c d := List.take_left _ _
  have hdrop : (fmtIpv4 a b c d ++ ':' :: decPrint p).drop
      ((fmtIpv4 a b c d).length + 1) = decPrint p := by
    rw [show fmtIpv4 a b c d ++ ':' :: decPrint p =
      (fmtIpv4 a b c d ++ [':']) ++ decPrint p from by
        rw [List.append_assoc]; rfl]
    rw [show (fmtIpv4 a b c d).length + 1 = (fmtIpv4 a b c d ++ [':']).length from by
      simp]
    exact List.drop_left _ _
  have hcont : (fmtIpv4 a b c d).contains ':' = false := by
    have hnm : ':' ∉ fmtIpv4 a b c d := by
      intro hm
      rcases fmtIpv4_chars a b c d ha hb hc hd ':' hm with ⟨k, hk, he⟩ | he
      · exact absurd he.symm (decDigitChar_ne k hk).2.1
      · exact absurd he (by decide)
    simp [hnm]
  have hip : ipv4FromStr (fmtIpv4 a b c d) = some (a, b, c, d) := by
    have hr := readIpv4_fmt a b c d ha hb hc hd [] (by simp)
    rw [List.append_nil] at hr
    simp only [ipv4FromStr, hr]
  rw [addressFromStr, if_neg hhead]
  simp only [hrf, htake, hdrop, hcont, Bool.false_eq_true, if_false, hip,
    parseU16_decPrint p hp]
  rfl

theorem addressFromStr_fmt_v6 (s0 s1 s2 s3 s4 s5 s6 s7 p : Nat)
    (hseglt : ∀ g ∈ [s0, s1, s2, s3, s4, s5, s6, s7], g < 65536) (hp : p < 65536) :
    addressFromStr (('[' :: fmtIpv6 s0 s1 s2 s3 s4 s5 s6 s7) ++ ']' :: ':' :: decPrint p) =
      some (Address.v6 s0 s1 s2 s3 s4 s5 s6 s7 p 0 0) := by
  have hhead : (('[' :: fmtIpv6 s0 s1 s2 s3 s4 s5 s6 s7) ++
      ']' :: ':' :: decPrint p).head? = some '[' := by
    rw [List.cons_append]
    rfl
  have hfi : List.findIdx? (fun cc => decide (cc = ']'))
      (('[' :: fmtIpv6 s0 s1 s2 s3 s4 s5 s6 s7) ++ ']' :: ':' :: decPrint p) =
      some ((fmtIpv6 s0 s1 s2 s3 s4 s5 s6 s7).length + 1) := by
    have hh := findIdx_no_then_hit (fun cc => decide (cc = ']'))
      ('[' :: fmtIpv6 s0 s1 s2 s3 s4 s5 s6 s7) 0 ']' (':' :: decPrint p)
      (fun x hx => by
        rcases List.mem_cons.mp hx with h | h
        · subst h; decide
        · have hne := fmtIpv6_no_bracket s0 s1 s2 s3 s4 s5 s6 s7 hseglt x h
          simp [hne])
      (by simp)
    simpa using hh
  have htake : ((('[' :: fmtIpv6 s0 s1 s2 s3 s4 s5 s6 s7) ++
      ']' :: ':' :: decPrint p).take
        ((fmtIpv6 s0 s1 s2 s3 s4 s5 s6 s7).length + 1)).drop 1 =
      fmtIpv6 s0 s1 s2 s3 s4 s5 s6 s7 := by
    rw [show (fmtIpv6 s0 s1 s2 s3 s4 s5 s6 s7).length + 1 =
      ('[' :: fmtIpv6 s0 s1 s2 s3 s4 s5 s6 s7).length from by simp]
    rw [List.take_left]
    rfl
  have hdrop : (('[' :: fmtIpv6 s0 s1 s2 s3 s4 s5 s6 s7) ++
      ']' :: ':' :: decPrint p).drop
        ((fmtIpv6 s0 s1 s2 s3 s4 s5 s6 s7).length + 1 + 1) = ':' :: decPrint p := by
    rw [show ('[' :: fmtIpv6 s0 s1 s2 s3 s4 s5 s6 s7) ++ ']' :: ':' :: decPrint p =
      (('[' :: fmtIpv6 s0 s1 s2 s3 s4 s5 s6 s7) ++ [']']) ++ ':' :: decPrint p from by
        rw [List.append_assoc]; rfl]
    rw [show (fmtIpv6 s0 s1 s2 s3 s4 s5 s6 s7).length + 1 + 1 =
      (('[' :: fmtIpv6 s0 s1 s2 s3 s4 s5 s6 s7) ++ [']']).length from by simp]
    exact List.drop_left _ _
  have h0 : s0 < 65536 := hseglt s0 (by simp)
  have h1 : s1 < 65536 := hseglt s1 (by simp)
  have h2 : s2 < 65536 := hseglt s2 (by simp)
  have h3 : s3 < 65536 := hseglt s3 (by simp)
  have h4 : s4 < 65536 := hseglt s4 (by simp)
  have h5 : s5 < 65536 := hseglt s5 (by simp)
  have h6 : s6 < 65536 := hseglt s6 (by simp)
  have h7 : s7 < 65536 := hseglt s7 (by simp)
  rw [addressFromStr, if_pos hhead]
  simp only [hfi, htake, hdrop, parseU16_decPrint p hp,
    ipv6FromStr_fmtIpv6 s0 s1 s2 s3 s4 s5 s6 s7 h0 h1 h2 h3 h4 h5 h6 h7]
  rfl

/-- C7 (corrected): for every address the program can construct whose
scope id is zero (all v4 addresses, and v6 addresses built by
`from_ipv6`), parsing the `Display` output with `Address::from_str`
returns the original address.  The unamended claim — round trip for
*any* constructible address including a nonzero `scope_id` — is refuted
by `address_roundtrip_scope_counterexample` below: `Display` prints only
`v6.ip()`, dropping the scope id, and `from_str` rebuilds the address
with scope id 0. -/
theorem address_parse_format_roundtrip (a : Address) (hwf : a.WF)
    (hsc : a.scope_id_of = 0) :
    addressFromStr (fmtAddress a) = some a := by
  cases a with
  | v4 a b c d p =>
    obtain ⟨ha, hb, hc, hd, hp⟩ := hwf
    show addressFromStr (fmtIpv4 a b c d ++ ':' :: decPrint p) = _
    exact addressFromStr_fmt_v4 a b c d p ha hb hc hd hp
  | v6 s0 s1 s2 s3 s4 s5 s6 s7 p fl sc =>
    obtain ⟨h0, h1, h2, h3, h4, h5, h6, h7, hp, hfl⟩ := hwf
    have hsc' : sc = 0 := hsc
    subst hfl
    subst hsc'
    have hseglt : ∀ g ∈ [s0, s1, s2, s3, s4, s5, s6, s7], g < 65536 := by
      intro g hg
      simp only [List.mem_cons, List.not_mem_nil, or_false] at hg
      rcases hg with rfl | rfl | rfl | rfl | rfl | rfl | rfl | rfl <;> assumption
    show addressFromStr
      (('[' :: fmtIpv6 s0 s1 s2 s3 s4 s5 s6 s7) ++ ']' :: ':' :: decPrint p) = _
    exact addressFromStr_fmt_v6 s0 s1 s2 s3 s4 s5 s6 s7 p hseglt hp

set_option maxRecDepth 1000000 in
/-- C7 counterexample to the unamended claim: the link-local address
`[fe80::1]:80` with scope id 3 (constructible via
`Address::from_ipv6_with_scope_id`, e.g. from an OS `sockaddr_in6`) does
not round-trip: formatting prints `[fe80::1]:80` without the scope, and
parsing that yields the address with scope id 0. -/
theorem address_roundtrip_scope_counterexample :
    (Address.from_ipv6_with_scope_id 65152 0 0 0 0 0 0 1 80 3).WF ∧
    addressFromStr
        (fmtAddress (Address.from_ipv6_with_scope_id 65152 0 0 0 0 0 0 1 80 3)) ≠
      some (Address.from_ipv6_with_scope_id 65152 0 0 0 0 0 0 1 80 3) := by
  constructor
  · decide
  · decide

/-- C7 witness: the round-trip theorem applied to the concrete address
`127.0.0.1:8080`. -/
theorem address_parse_format_roundtrip_witness :
    (Address.v4 127 0 0 1 8080).WF ∧ (Address.v4 127 0 0 1 8080).scope_id_of = 0 ∧
    addressFromStr (fmtAddress (Address.v4 127 0 0 1 8080)) =
      some (Address.v4 127 0 0 1 8080) :=
  ⟨by decide, by decide,
    address_parse_format_roundtrip (Address.v4 127 0 0 1 8080) (by decide) (by decide)⟩
